import Mathlib

/-!
# Verification of the slotted-page storage engine (`crates/storage/src/lib.rs`)

Shallow embedding of the fixed-size slotted-page storage module.  A page is a
byte buffer of `PAGE_SIZE = 8192` bytes, modelled as a total function
`Nat → Nat` whose relevant entries are byte values (`< 256`).  File I/O is
dropped: every operation takes the current content of the one-page file and
returns the new content (or an error).  Rust panics (out-of-range slicing,
`unwrap` on `String::from_utf8`, `copy_from_slice` length mismatch) are
modelled explicitly: `Option.none` on the read path and the `WriteResult.panicked`
constructor on the write path.  Machine integers are `Nat` with explicit
`% 2^w` at the places where the source casts (`entry_size as u16`,
`len() as u16`).
-/

set_option autoImplicit false

/-- `const PAGE_SIZE: usize = 8192;` -/
def PAGE_SIZE : Nat := 8192

/-- A page buffer: byte index ↦ byte value.  Indices `≥ PAGE_SIZE` are never
written by the model; Rust would panic on such an access, which the model
makes explicit with bounds checks at every slice access of the source. -/
def Page : Type := Nat → Nat

/-- `buf[i..i+bs.length].copy_from_slice(&bs)`: overwrite the bytes at
positions `i, i+1, …, i+bs.length-1` with the elements of `bs`. -/
def writeBytes (p : Page) (i : Nat) (bs : List Nat) : Page :=
  fun j => if i ≤ j ∧ j < i + bs.length then bs.getD (j - i) 0 else p j

/-- `uN::to_le_bytes`: the `k`-byte little-endian encoding of `v`
(`[v % 256, v / 256 % 256, …]`).  Values `≥ 256^k` are truncated, exactly as
a `as uN` cast would truncate them. -/
def toLeBytes : Nat → Nat → List Nat
  | 0, _ => []
  | k + 1, v => v % 256 :: toLeBytes k (v / 256)

/-- `uN::from_le_bytes(page[i..i+k])`: read `k` bytes little-endian. -/
def readLE (p : Page) : Nat → Nat → Nat
  | _, 0 => 0
  | i, k + 1 => p i + 256 * readLE p (i + 1) k

/-- `page[i..i+n].to_vec()`: the `n` bytes starting at position `i`. -/
def readBytes (p : Page) (i n : Nat) : List Nat :=
  (List.range n).map (fun k => p (i + k))

/-- `0x80 ≤ b ≤ 0xBF`: a UTF-8 continuation byte. -/
def isCont (b : Nat) : Bool := 128 ≤ b && b ≤ 191

/-- Validity of a byte sequence as UTF-8, as checked by Rust's
`String::from_utf8` (RFC 3629: no overlongs, no surrogates, max U+10FFFF). -/
def utf8Valid : List Nat → Bool
  | [] => true
  | b :: bs =>
    if b ≤ 127 then utf8Valid bs
    else if 194 ≤ b && b ≤ 223 then
      match bs with
      | b1 :: bs1 => isCont b1 && utf8Valid bs1
      | [] => false
    else if b == 224 then
      match bs with
      | b1 :: b2 :: bs1 => (160 ≤ b1 && b1 ≤ 191) && isCont b2 && utf8Valid bs1
      | _ => false
    else if (225 ≤ b && b ≤ 236) || (238 ≤ b && b ≤ 239) then
      match bs with
      | b1 :: b2 :: bs1 => isCont b1 && isCont b2 && utf8Valid bs1
      | _ => false
    else if b == 237 then
      match bs with
      | b1 :: b2 :: bs1 => (128 ≤ b1 && b1 ≤ 159) && isCont b2 && utf8Valid bs1
      | _ => false
    else if b == 240 then
      match bs with
      | b1 :: b2 :: b3 :: bs1 =>
        (144 ≤ b1 && b1 ≤ 191) && isCont b2 && isCont b3 && utf8Valid bs1
      | _ => false
    else if 241 ≤ b && b ≤ 243 then
      match bs with
      | b1 :: b2 :: b3 :: bs1 => isCont b1 && isCont b2 && isCont b3 && utf8Valid bs1
      | _ => false
    else if b == 244 then
      match bs with
      | b1 :: b2 :: b3 :: bs1 =>
        (128 ≤ b1 && b1 ≤ 143) && isCont b2 && isCont b3 && utf8Valid bs1
      | _ => false
    else false

/-- `struct TableMetadata { table_id: u32, table_name: String }`.
Strings are modelled by their UTF-8 byte sequences (Rust `String` equality is
byte equality). -/
structure TableMetadata where
  table_id : Nat
  table_name : List Nat
deriving DecidableEq

/-- `struct ColumnMetadata { column_id: u32, table_id: u32, column_name: String,
data_type: String, is_nullable: bool }`. -/
structure ColumnMetadata where
  column_id : Nat
  table_id : Nat
  column_name : List Nat
  data_type : List Nat
  is_nullable : Bool
deriving DecidableEq

/-- The per-table encoder inside `write_postgres_class`:
`table_id.to_le_bytes() ++ (table_name.len() as u16).to_le_bytes() ++ table_name`.
The `as u16` cast is `toLeBytes 2`, which truncates the length mod `2^16`. -/
def encodeTable (t : TableMetadata) : List Nat :=
  toLeBytes 4 t.table_id ++ toLeBytes 2 t.table_name.length ++ t.table_name

/-- The per-column encoder inside `write_postgres_attribute`. -/
def encodeColumn (c : ColumnMetadata) : List Nat :=
  toLeBytes 4 c.column_id ++ toLeBytes 4 c.table_id ++
  toLeBytes 2 c.column_name.length ++ c.column_name ++
  toLeBytes 2 c.data_type.length ++ c.data_type ++
  [if c.is_nullable then 1 else 0]

/-- The `parse_entry` closure of `read_postgres_class`.  Each slice access of
the source carries a bounds check: Rust panics when it fails, modelled as
`none`; likewise `String::from_utf8(..).unwrap()` panics on invalid UTF-8,
modelled as `none` after the `utf8Valid` test.  On success it returns the
decoded record with the offset one past its last byte, as the source does. -/
def parseTableEntry (page : Page) (ptr : Nat) : Option (TableMetadata × Nat) :=
  if ptr + 4 ≤ PAGE_SIZE then
    let table_id := readLE page ptr 4
    if ptr + 4 + 2 ≤ PAGE_SIZE then
      let nameLen := readLE page (ptr + 4) 2
      if ptr + 6 + nameLen ≤ PAGE_SIZE then
        let nameBytes := readBytes page (ptr + 6) nameLen
        if utf8Valid nameBytes then
          some (⟨table_id, nameBytes⟩, ptr + 6 + nameLen)
        else none
      else none
    else none
  else none

/-- The `parse_entry` closure of `read_postgres_attribute`; panics modelled as
`none` exactly as in `parseTableEntry`.  The trailing `page[offset] != 0`
gives `is_nullable`. -/
def parseColumnEntry (page : Page) (ptr : Nat) : Option (ColumnMetadata × Nat) :=
  if ptr + 4 ≤ PAGE_SIZE then
    let column_id := readLE page ptr 4
    if ptr + 4 + 4 ≤ PAGE_SIZE then
      let table_id := readLE page (ptr + 4) 4
      if ptr + 8 + 2 ≤ PAGE_SIZE then
        let cnLen := readLE page (ptr + 8) 2
        if ptr + 10 + cnLen ≤ PAGE_SIZE then
          let cn := readBytes page (ptr + 10) cnLen
          if utf8Valid cn then
            if ptr + 10 + cnLen + 2 ≤ PAGE_SIZE then
              let dtLen := readLE page (ptr + 10 + cnLen) 2
              if ptr + 12 + cnLen + dtLen ≤ PAGE_SIZE then
                let dt := readBytes page (ptr + 12 + cnLen) dtLen
                if utf8Valid dt then
                  if ptr + 12 + cnLen + dtLen < PAGE_SIZE then
                    some (⟨column_id, table_id, cn, dt,
                           page (ptr + 12 + cnLen + dtLen) != 0⟩,
                          ptr + 12 + cnLen + dtLen + 1)
                  else none
                else none
              else none
            else none
          else none
        else none
      else none
    else none
  else none

/-- The directory scan of `read_metadata`: starting at byte 18, read one
2-byte pointer and step by 2 `while offset < lower`.  The offsets visited are
`18 + 2k` for `18 + 2k < lower`, i.e. for `k < (lower - 18 + 1) / 2`; the
loop panics (slice out of range) as soon as some visited offset has
`offset + 2 > PAGE_SIZE`, which happens iff the largest one does. -/
def readPointers (page : Page) (lower : Nat) : Option (List Nat) :=
  let count := (lower - 18 + 1) / 2
  if count = 0 ∨ 18 + 2 * count ≤ PAGE_SIZE then
    some ((List.range count).map fun k => readLE page (18 + 2 * k) 2)
  else none

/-- The parse loop of `read_metadata`: `for pointer in pointers { parse; push }`.
A parse panic (modelled `none`) aborts the whole call; the returned
`next_offset` component is discarded, as in the source. -/
def parseEntries {T : Type} (page : Page) (parse_entry : Page → Nat → Option (T × Nat)) :
    List Nat → Option (List T)
  | [] => some []
  | ptr :: rest =>
    match parse_entry page ptr with
    | none => none
    | some (entry, _) =>
      match parseEntries page parse_entry rest with
      | none => none
      | some es => some (entry :: es)

/-- `read_metadata`: load the page, read `lower` from bytes 12..14, scan the
directory, parse each record at its pointer, in directory order. -/
def read_metadata {T : Type} (page : Page) (parse_entry : Page → Nat → Option (T × Nat)) :
    Option (List T) :=
  match readPointers page (readLE page 12 2) with
  | none => none
  | some ptrs => parseEntries page parse_entry ptrs

/-- Result of `write_metadata` on the one-page file: the new file content on
success, the `Err("Insufficient space in page.")` early return, or a panic
(out-of-range slice / `copy_from_slice` length mismatch). -/
inductive WriteResult where
  | ok (page : Page)
  | spaceExhausted
  | panicked

/-- Intermediate state of the `for entry in entries` loop of `write_metadata`:
the mutated in-memory buffer together with the current `lower` and `higher`. -/
inductive LoopResult where
  | ok (page : Page) (lower higher : Nat)
  | spaceExhausted
  | panicked

/-- The `for entry in entries` loop of `write_metadata`.  Per entry:
`entry_size = calculate_size(&entry)`; fail with `spaceExhausted` when
`higher < entry_size as u16 || lower + 2 > PAGE_SIZE` (the cast is the
`% 65536`); otherwise `higher -= entry_size as u16`, write the directory
entry `higher.to_le_bytes()` at `lower`, bump `lower` by 2, and copy the
entry to `page[higher..higher + entry_size]` — the copy uses the untruncated
`usize` size and panics if the slice leaves the page or its length differs
from `entry.len()`. -/
def writeLoop (calculate_size : List Nat → Nat) :
    Page → Nat → Nat → List (List Nat) → LoopResult
  | page, lower, higher, [] => .ok page lower higher
  | page, lower, higher, entry :: rest =>
    let entry_size := calculate_size entry
    if higher < entry_size % 65536 ∨ lower + 2 > PAGE_SIZE then
      .spaceExhausted
    else
      let higher9 := higher - entry_size % 65536
      let page9 := writeBytes page lower (toLeBytes 2 higher9)
      if higher9 + entry_size ≤ PAGE_SIZE ∧ entry_size = entry.length then
        writeLoop calculate_size (writeBytes page9 higher9 entry) (lower + 2) higher9 rest
      else .panicked

/-- `write_metadata`: read `lower`/`higher` from the loaded page, run the
entry loop, then (only on success) write the updated `higher` and `lower`
back into the header and persist the whole buffer.  An error return happens
before the file write, so the file keeps its old content in that case. -/
def write_metadata (calculate_size : List Nat → Nat) (page : Page)
    (entries : List (List Nat)) : WriteResult :=
  match writeLoop calculate_size page (readLE page 12 2) (readLE page 14 2) entries with
  | .ok page9 lower9 higher9 =>
    .ok (writeBytes (writeBytes page9 14 (toLeBytes 2 higher9)) 12 (toLeBytes 2 lower9))
  | .spaceExhausted => .spaceExhausted
  | .panicked => .panicked

/-- The content of the one-page file after a `write_metadata` call: replaced
on success, untouched when the call returns an error or panics. -/
def diskAfter (calculate_size : List Nat → Nat) (page : Page)
    (entries : List (List Nat)) : Page :=
  match write_metadata calculate_size page entries with
  | .ok page9 => page9
  | _ => page

/-- `write_postgres_class`: encode each table and append the batch; the
`calculate_size` closure is `|entry| entry.len()`. -/
def write_postgres_class (page : Page) (tables : List TableMetadata) : WriteResult :=
  write_metadata List.length page (tables.map encodeTable)

/-- `read_postgres_class`. -/
def read_postgres_class (page : Page) : Option (List TableMetadata) :=
  read_metadata page parseTableEntry

/-- `write_postgres_attribute`. -/
def write_postgres_attribute (page : Page) (columns : List ColumnMetadata) : WriteResult :=
  write_metadata List.length page (columns.map encodeColumn)

/-- `read_postgres_attribute`. -/
def read_postgres_attribute (page : Page) : Option (List ColumnMetadata) :=
  read_metadata page parseColumnEntry

/-- `create_postgres_file`: a zero-filled page with
`lsn = 12345678`, `checksum = 42`, `flags = 40`, `lower = 18`,
`higher = PAGE_SIZE`, `special_space = PAGE_SIZE` written little-endian at
offsets 0, 8, 10, 12, 14, 16.  This constant is the content of the freshly
created file. -/
def create_postgres_file : Page :=
  writeBytes
    (writeBytes
      (writeBytes
        (writeBytes
          (writeBytes
            (writeBytes (fun _ => 0) 0 (toLeBytes 8 12345678))
            8 (toLeBytes 2 42))
          10 (toLeBytes 2 40))
        12 (toLeBytes 2 18))
      14 (toLeBytes 2 PAGE_SIZE))
    16 (toLeBytes 2 PAGE_SIZE)

/-- Total encoded size of a batch of entries. -/
def sumLens (entries : List (List Nat)) : Nat := (entries.map List.length).sum

/-- `.isOk` discriminator for `WriteResult`. -/
def WriteResult.isOk : WriteResult → Bool
  | .ok _ => true
  | _ => false

/-- `.isPanicked` discriminator for `WriteResult`. -/
def WriteResult.isPanicked : WriteResult → Bool
  | .panicked => true
  | _ => false

/-! ## Basic lemmas about the byte-buffer primitives -/

theorem toLeBytes_length : ∀ (k v : Nat), (toLeBytes k v).length = k
  | 0, _ => rfl
  | k + 1, v => by simp [toLeBytes, toLeBytes_length k]

theorem writeBytes_apply_lt (p : Page) (i : Nat) (bs : List Nat) (j : Nat) (h : j < i) :
    writeBytes p i bs j = p j := by
  simp only [writeBytes]
  rw [if_neg (by omega)]

theorem writeBytes_apply_ge (p : Page) (i : Nat) (bs : List Nat) (j : Nat)
    (h : i + bs.length ≤ j) : writeBytes p i bs j = p j := by
  simp only [writeBytes]
  rw [if_neg (by omega)]

theorem writeBytes_apply_mem (p : Page) (i : Nat) (bs : List Nat) (j : Nat)
    (h1 : i ≤ j) (h2 : j < i + bs.length) : writeBytes p i bs j = bs.getD (j - i) 0 := by
  simp only [writeBytes]
  rw [if_pos ⟨h1, h2⟩]

theorem getD_replicate {a d : Nat} : ∀ (n m : Nat), m < n → (List.replicate n a).getD m d = a
  | n + 1, 0, _ => rfl
  | n + 1, m + 1, h => by
    rw [List.replicate_succ, List.getD_cons_succ]
    exact getD_replicate n m (by omega)

theorem readLE_two (p : Page) (i : Nat) : readLE p i 2 = p i + 256 * p (i + 1) := by
  simp [readLE]

theorem readLE_region : ∀ (k : Nat) (p : Page) (i v : Nat),
    (∀ j, j < k → p (i + j) = (toLeBytes k v).getD j 0) →
    readLE p i k = v % 256 ^ k
  | 0, p, i, v, _ => by simp [readLE, Nat.mod_one]
  | k + 1, p, i, v, h => by
    have h0 : p i = v % 256 := by
      have := h 0 (by omega)
      simpa [toLeBytes] using this
    have hrec : readLE p (i + 1) k = (v / 256) % 256 ^ k := by
      refine readLE_region k p (i + 1) (v / 256) (fun j hj => ?_)
      have := h (j + 1) (by omega)
      rw [show i + (j + 1) = i + 1 + j from by omega] at this
      simpa [toLeBytes] using this
    have hsplit : v % 256 + 256 * (v / 256 % 256 ^ k) = v % (256 * 256 ^ k) :=
      (Nat.mod_mul).symm
    calc readLE p i (k + 1) = p i + 256 * readLE p (i + 1) k := by simp [readLE]
    _ = v % 256 + 256 * (v / 256 % 256 ^ k) := by rw [h0, hrec]
    _ = v % (256 * 256 ^ k) := hsplit
    _ = v % 256 ^ (k + 1) := by rw [pow_succ, Nat.mul_comm]

/-- Reading back a 2-byte little-endian value just written. -/
theorem readLE_writeBytes_toLe2 (p : Page) (i v : Nat) :
    readLE (writeBytes p i (toLeBytes 2 v)) i 2 = v % 65536 := by
  have h := readLE_region 2 (writeBytes p i (toLeBytes 2 v)) i v (fun j hj => by
    rw [writeBytes_apply_mem _ _ _ _ (by omega) (by rw [toLeBytes_length]; omega)]
    congr 1
    omega)
  simpa using h

theorem sumLens_nil : sumLens [] = 0 := rfl

theorem sumLens_cons (e : List Nat) (es : List (List Nat)) :
    sumLens (e :: es) = e.length + sumLens es := by
  simp [sumLens]

theorem sumLens_take_add_drop (es : List (List Nat)) (n : Nat) :
    sumLens (es.take n) + sumLens (es.drop n) = sumLens es := by
  rw [sumLens, sumLens, sumLens, ← List.sum_append, ← List.map_append,
    List.take_append_drop]

theorem sumLens_take_le (es : List (List Nat)) (n : Nat) :
    sumLens (es.take n) ≤ sumLens es := by
  have := sumLens_take_add_drop es n
  omega

theorem sumLens_take_succ (es : List (List Nat)) (n : Nat) (h : n < es.length) :
    sumLens (es.take (n + 1)) = sumLens (es.take n) + (es.getD n []).length := by
  rw [sumLens, sumLens, List.map_take, List.map_take,
    List.sum_take_succ _ _ (by simpa using h), List.getD_eq_getElem es [] h]
  simp

/-! ## Characterisation of the write loop -/

/-- One loop iteration when the space check passes and the copy is in
bounds. -/
theorem writeLoop_cons_step (cs : List Nat → Nat) (p : Page) (l h : Nat) (e : List Nat)
    (rest : List (List Nat))
    (hno : ¬(h < cs e % 65536 ∨ l + 2 > PAGE_SIZE))
    (hcopy : h - cs e % 65536 + cs e ≤ PAGE_SIZE ∧ cs e = e.length) :
    writeLoop cs p l h (e :: rest) =
      writeLoop cs (writeBytes (writeBytes p l (toLeBytes 2 (h - cs e % 65536)))
        (h - cs e % 65536) e) (l + 2) (h - cs e % 65536) rest := by
  simp only [writeLoop]
  rw [if_neg hno, if_pos hcopy]

/-- One loop iteration when the space check fires: `spaceExhausted`, before
any mutation of the buffer. -/
theorem writeLoop_cons_fail (cs : List Nat → Nat) (p : Page) (l h : Nat) (e : List Nat)
    (rest : List (List Nat))
    (hyes : h < cs e % 65536 ∨ l + 2 > PAGE_SIZE) :
    writeLoop cs p l h (e :: rest) = .spaceExhausted := by
  simp only [writeLoop]
  rw [if_pos hyes]

/-- One loop iteration when the space check passes but the tuple copy would
leave the page (or the computed size disagrees with the entry length): Rust
panics. -/
theorem writeLoop_cons_panic (cs : List Nat → Nat) (p : Page) (l h : Nat) (e : List Nat)
    (rest : List (List Nat))
    (hno : ¬(h < cs e % 65536 ∨ l + 2 > PAGE_SIZE))
    (hbad : ¬(h - cs e % 65536 + cs e ≤ PAGE_SIZE ∧ cs e = e.length)) :
    writeLoop cs p l h (e :: rest) = .panicked := by
  simp only [writeLoop]
  rw [if_neg hno, if_neg hbad]

/-- Reading back the 2-byte directory entry written at `l`, through the
record copy at `h1 ≥ l + 2`. -/
theorem readLE2_after_dir_write (p : Page) (l h1 : Nat) (e : List Nat)
    (hlh : l + 2 ≤ h1) (hv : h1 ≤ 8192) :
    readLE (writeBytes (writeBytes p l (toLeBytes 2 h1)) h1 e) l 2 = h1 := by
  rw [readLE_two,
    writeBytes_apply_lt (writeBytes p l (toLeBytes 2 h1)) h1 e l (by omega),
    writeBytes_apply_lt (writeBytes p l (toLeBytes 2 h1)) h1 e (l + 1) (by omega),
    writeBytes_apply_mem p l (toLeBytes 2 h1) l (by omega)
      (by rw [toLeBytes_length]; omega),
    writeBytes_apply_mem p l (toLeBytes 2 h1) (l + 1) (by omega)
      (by rw [toLeBytes_length]; omega)]
  simp only [toLeBytes, Nat.sub_self, List.getD_cons_zero,
    show l + 1 - l = 1 from by omega, List.getD_cons_succ]
  omega

/-- Reading byte `k` of the record just copied to offset `h1`. -/
theorem apply_after_record_write (p : Page) (l h1 : Nat) (e : List Nat) (k : Nat)
    (hk : k < e.length) :
    writeBytes (writeBytes p l (toLeBytes 2 h1)) h1 e (h1 + k) = e.getD k 0 := by
  rw [writeBytes_apply_mem (writeBytes p l (toLeBytes 2 h1)) h1 e (h1 + k)
    (by omega) (by omega)]
  congr 1
  omega

/-- One loop iteration does not touch bytes below `l` nor from `h1 + |e|` up. -/
theorem step_page_frame (p : Page) (l h1 : Nat) (e : List Nat) (j : Nat)
    (hlh : l + 2 ≤ h1) (hj : j < l ∨ h1 + e.length ≤ j) :
    writeBytes (writeBytes p l (toLeBytes 2 h1)) h1 e j = p j := by
  rcases hj with hj | hj
  · rw [writeBytes_apply_lt (writeBytes p l (toLeBytes 2 h1)) h1 e j (by omega),
      writeBytes_apply_lt p l (toLeBytes 2 h1) j hj]
  · rw [writeBytes_apply_ge (writeBytes p l (toLeBytes 2 h1)) h1 e j (by omega),
      writeBytes_apply_ge p l (toLeBytes 2 h1) j (by rw [toLeBytes_length]; omega)]

/-- Main specification of the `write_metadata` entry loop, for batches whose
directory growth plus tuple bytes fit between `lower` and `higher`
(`l + 2N + Σ sizes ≤ h`): the loop succeeds, ends with
`lower = l + 2N`, `higher = h - Σ sizes`, leaves every byte below `l` and
from `h` up unchanged, stores directory entry `i` (read back little-endian at
`l + 2i`) equal to the tuple offset `h - Σ_{j ≤ i} sizes`, and stores the
bytes of record `i` at that offset. -/
theorem writeLoop_ok (entries : List (List Nat)) : ∀ (p : Page) (l h : Nat),
    h ≤ PAGE_SIZE →
    l + 2 * entries.length + sumLens entries ≤ h →
    ∃ p9, writeLoop List.length p l h entries
            = .ok p9 (l + 2 * entries.length) (h - sumLens entries)
      ∧ (∀ j, j < l ∨ h ≤ j → p9 j = p j)
      ∧ (∀ i, i < entries.length →
          readLE p9 (l + 2 * i) 2 = h - sumLens (entries.take (i + 1))
          ∧ ∀ k, k < (entries.getD i []).length →
              p9 (h - sumLens (entries.take (i + 1)) + k) = (entries.getD i []).getD k 0) := by
  induction entries with
  | nil =>
    intro p l h hh hfit
    refine ⟨p, ?_, fun j _ => rfl, fun i hi => by simp at hi⟩
    simp [writeLoop, sumLens]
  | cons e rest ih =>
    intro p l h hh hfit
    rw [sumLens_cons, List.length_cons] at hfit
    have hps : PAGE_SIZE = 8192 := rfl
    have hel : e.length ≤ h := by omega
    have hemod : List.length e % 65536 = e.length := Nat.mod_eq_of_lt (by omega)
    have hstep := writeLoop_cons_step List.length p l h e rest
      (by rw [hemod]; omega) (by rw [hemod]; exact ⟨by omega, rfl⟩)
    rw [hemod] at hstep
    have hfit1 : l + 2 + 2 * rest.length + sumLens rest ≤ h - e.length := by omega
    have hl2h1 : l + 2 ≤ h - e.length := by omega
    obtain ⟨p9, hres, hframe, hrec⟩ :=
      ih (writeBytes (writeBytes p l (toLeBytes 2 (h - e.length))) (h - e.length) e)
        (l + 2) (h - e.length) (by omega) hfit1
    refine ⟨p9, ?_, ?_, ?_⟩
    · rw [hstep, List.length_cons, sumLens_cons,
        show l + 2 * (rest.length + 1) = l + 2 + 2 * rest.length from by omega,
        show h - (e.length + sumLens rest) = h - e.length - sumLens rest from by omega]
      exact hres
    · intro j hj
      rw [hframe j (by omega)]
      exact step_page_frame p l (h - e.length) e j hl2h1 (by omega)
    · intro i hi
      cases i with
      | zero =>
        have hsum1 : sumLens ((e :: rest).take (0 + 1)) = e.length := by
          simp [sumLens]
        refine ⟨?_, ?_⟩
        · rw [hsum1, Nat.mul_zero, Nat.add_zero, readLE_two,
            hframe l (by omega), hframe (l + 1) (by omega), ← readLE_two,
            readLE2_after_dir_write p l (h - e.length) e hl2h1 (by omega)]
        · intro k hk
          rw [List.getD_cons_zero] at hk
          rw [hsum1, List.getD_cons_zero,
            hframe (h - e.length + k) (by omega),
            apply_after_record_write p l (h - e.length) e k hk]
      | succ i9 =>
        have hi9 : i9 < rest.length := by
          rw [List.length_cons] at hi
          omega
        obtain ⟨hdir, hbytes⟩ := hrec i9 hi9
        have htake : (e :: rest).take (i9 + 1 + 1) = e :: rest.take (i9 + 1) := rfl
        have hsum : sumLens ((e :: rest).take (i9 + 1 + 1))
            = e.length + sumLens (rest.take (i9 + 1)) := by
          rw [htake, sumLens_cons]
        have hsub : h - (e.length + sumLens (rest.take (i9 + 1)))
            = h - e.length - sumLens (rest.take (i9 + 1)) := by omega
        refine ⟨?_, ?_⟩
        · rw [hsum, hsub, show l + 2 * (i9 + 1) = l + 2 + 2 * i9 from by omega]
          exact hdir
        · intro k hk
          rw [List.getD_cons_succ] at hk
          rw [hsum, hsub, List.getD_cons_succ]
          exact hbytes k hk

/-! ## `write_metadata` level lemmas -/

/-- Successful loop ⇒ `write_metadata` writes the final `higher` then `lower`
into the header and returns the whole buffer. -/
theorem write_metadata_of_loop (cs : List Nat → Nat) (p : Page) (entries : List (List Nat))
    (q : Page) (l9 h9 : Nat)
    (hloop : writeLoop cs p (readLE p 12 2) (readLE p 14 2) entries = .ok q l9 h9) :
    write_metadata cs p entries
      = .ok (writeBytes (writeBytes q 14 (toLeBytes 2 h9)) 12 (toLeBytes 2 l9)) := by
  rw [write_metadata, hloop]

/-- Inversion: a successful `write_metadata` comes from a successful loop. -/
theorem write_metadata_ok_inv (cs : List Nat → Nat) (p : Page) (entries : List (List Nat))
    (p9 : Page) (hw : write_metadata cs p entries = .ok p9) :
    ∃ q l9 h9, writeLoop cs p (readLE p 12 2) (readLE p 14 2) entries = .ok q l9 h9
      ∧ p9 = writeBytes (writeBytes q 14 (toLeBytes 2 h9)) 12 (toLeBytes 2 l9) := by
  rw [write_metadata] at hw
  cases hres : writeLoop cs p (readLE p 12 2) (readLE p 14 2) entries with
  | ok q l9 h9 =>
    rw [hres] at hw
    simp only [WriteResult.ok.injEq] at hw
    exact ⟨q, l9, h9, rfl, hw.symm⟩
  | spaceExhausted => rw [hres] at hw; simp at hw
  | panicked => rw [hres] at hw; simp at hw

/-- Reading `lower` back from the final header writes. -/
theorem final_header_lower (q : Page) (l9 h9 : Nat) :
    readLE (writeBytes (writeBytes q 14 (toLeBytes 2 h9)) 12 (toLeBytes 2 l9)) 12 2
      = l9 % 65536 :=
  readLE_writeBytes_toLe2 _ 12 l9

/-- Reading `higher` back from the final header writes. -/
theorem final_header_higher (q : Page) (l9 h9 : Nat) :
    readLE (writeBytes (writeBytes q 14 (toLeBytes 2 h9)) 12 (toLeBytes 2 l9)) 14 2
      = h9 % 65536 := by
  rw [readLE_two,
    writeBytes_apply_ge (writeBytes q 14 (toLeBytes 2 h9)) 12 (toLeBytes 2 l9) 14
      (by rw [toLeBytes_length]),
    writeBytes_apply_ge (writeBytes q 14 (toLeBytes 2 h9)) 12 (toLeBytes 2 l9) 15
      (by rw [toLeBytes_length]; omega),
    ← readLE_two]
  exact readLE_writeBytes_toLe2 q 14 h9

/-- The final header writes only touch bytes 12–15. -/
theorem final_header_frame (q : Page) (l9 h9 j : Nat) (hj : j < 12 ∨ 16 ≤ j) :
    writeBytes (writeBytes q 14 (toLeBytes 2 h9)) 12 (toLeBytes 2 l9) j = q j := by
  rcases hj with hj | hj
  · rw [writeBytes_apply_lt (writeBytes q 14 (toLeBytes 2 h9)) 12 (toLeBytes 2 l9) j hj,
      writeBytes_apply_lt q 14 (toLeBytes 2 h9) j (by omega)]
  · rw [writeBytes_apply_ge (writeBytes q 14 (toLeBytes 2 h9)) 12 (toLeBytes 2 l9) j
      (by rw [toLeBytes_length]; omega),
      writeBytes_apply_ge q 14 (toLeBytes 2 h9) j (by rw [toLeBytes_length]; omega)]

/-- Full specification of a fitting batch append at the `write_metadata`
level: success, final header values, preservation of the header bytes other
than `lower`/`higher` and of all bytes outside the touched directory and
tuple regions, directory entries, and stored record bytes. -/
theorem write_metadata_spec (entries : List (List Nat)) (p : Page) (l h : Nat)
    (hl : readLE p 12 2 = l) (hh : readLE p 14 2 = h)
    (hl18 : 18 ≤ l) (hhp : h ≤ PAGE_SIZE)
    (hfit : l + 2 * entries.length + sumLens entries ≤ h) :
    ∃ p9, write_metadata List.length p entries = .ok p9
      ∧ readLE p9 12 2 = l + 2 * entries.length
      ∧ readLE p9 14 2 = h - sumLens entries
      ∧ (∀ j, j < 12 ∨ (16 ≤ j ∧ j < 18) → p9 j = p j)
      ∧ (∀ j, 18 ≤ j → j < l ∨ h ≤ j → p9 j = p j)
      ∧ (∀ i, i < entries.length →
          readLE p9 (l + 2 * i) 2 = h - sumLens (entries.take (i + 1))
          ∧ ∀ k, k < (entries.getD i []).length →
              p9 (h - sumLens (entries.take (i + 1)) + k)
                = (entries.getD i []).getD k 0) := by
  have hps : PAGE_SIZE = 8192 := rfl
  obtain ⟨q, hloop, hframe, hrec⟩ := writeLoop_ok entries p l h hhp hfit
  have hloop9 : writeLoop List.length p (readLE p 12 2) (readLE p 14 2) entries
      = .ok q (l + 2 * entries.length) (h - sumLens entries) := by
    rw [hl, hh]; exact hloop
  refine ⟨_, write_metadata_of_loop List.length p entries q _ _ hloop9, ?_, ?_, ?_, ?_, ?_⟩
  · rw [final_header_lower]
    exact Nat.mod_eq_of_lt (by omega)
  · rw [final_header_higher]
    exact Nat.mod_eq_of_lt (by omega)
  · intro j hj
    rw [final_header_frame q _ _ j (by omega)]
    exact hframe j (by omega)
  · intro j hj18 hj
    rw [final_header_frame q _ _ j (by omega)]
    exact hframe j hj
  · intro i hi
    obtain ⟨hdir, hbytes⟩ := hrec i hi
    have hoff : 18 ≤ h - sumLens (entries.take (i + 1)) := by
      have h1 := sumLens_take_le entries (i + 1)
      omega
    refine ⟨?_, ?_⟩
    · rw [readLE_two, final_header_frame q _ _ (l + 2 * i) (by omega),
        final_header_frame q _ _ (l + 2 * i + 1) (by omega), ← readLE_two]
      exact hdir
    · intro k hk
      rw [final_header_frame q _ _ _ (by omega)]
      exact hbytes k hk

/-- A failed `write_metadata` call leaves the one-page file untouched. -/
theorem diskAfter_of_spaceExhausted (cs : List Nat → Nat) (p : Page)
    (entries : List (List Nat))
    (hw : write_metadata cs p entries = .spaceExhausted) :
    diskAfter cs p entries = p := by
  rw [diskAfter, hw]

/-- Header-cursor bounds are maintained by every successful loop run:
`lower` only grows (by 2 per record, never past `PAGE_SIZE`) and `higher`
only shrinks. -/
theorem writeLoop_ok_bounds (cs : List Nat → Nat) (entries : List (List Nat)) :
    ∀ (p : Page) (l h : Nat) (q : Page) (l9 h9 : Nat),
    l ≤ PAGE_SIZE →
    writeLoop cs p l h entries = .ok q l9 h9 →
    l ≤ l9 ∧ l9 ≤ PAGE_SIZE ∧ h9 ≤ h := by
  induction entries with
  | nil =>
    intro p l h q l9 h9 hlp hw
    simp only [writeLoop, LoopResult.ok.injEq] at hw
    omega
  | cons e rest ih =>
    intro p l h q l9 h9 hlp hw
    by_cases hc : h < cs e % 65536 ∨ l + 2 > PAGE_SIZE
    · rw [writeLoop_cons_fail cs p l h e rest hc] at hw
      simp at hw
    · by_cases hc2 : h - cs e % 65536 + cs e ≤ PAGE_SIZE ∧ cs e = e.length
      · rw [writeLoop_cons_step cs p l h e rest hc hc2] at hw
        have := ih _ (l + 2) (h - cs e % 65536) q l9 h9 (by omega) hw
        omega
      · rw [writeLoop_cons_panic cs p l h e rest hc hc2] at hw
        simp at hw

/-- The final cursor values of every successful loop run (entry sizes
computed by `List.length`): success rules out record sizes `≥ 2^16` — the
tuple copy would leave the page — so `lower` grows by exactly 2 per record
and `higher` shrinks by exactly the record sizes, with no truncation. -/
theorem writeLoop_ok_values (entries : List (List Nat)) :
    ∀ (p : Page) (l h : Nat) (q : Page) (l9 h9 : Nat),
    writeLoop List.length p l h entries = .ok q l9 h9 →
    l9 = l + 2 * entries.length ∧ h9 = h - sumLens entries := by
  induction entries with
  | nil =>
    intro p l h q l9 h9 hw
    simp only [writeLoop, LoopResult.ok.injEq] at hw
    rw [sumLens_nil]
    simp only [List.length_nil]
    omega
  | cons e rest ih =>
    intro p l h q l9 h9 hw
    by_cases hc : h < List.length e % 65536 ∨ l + 2 > PAGE_SIZE
    · rw [writeLoop_cons_fail List.length p l h e rest hc] at hw
      simp at hw
    · by_cases hc2 : h - List.length e % 65536 + List.length e ≤ PAGE_SIZE
          ∧ List.length e = e.length
      · rw [writeLoop_cons_step List.length p l h e rest hc hc2] at hw
        obtain ⟨hl9, hh9⟩ := ih _ (l + 2) (h - List.length e % 65536) q l9 h9 hw
        have hps : PAGE_SIZE = 8192 := rfl
        have hsmall : List.length e % 65536 = e.length := by
          have h1 := hc2.1
          omega
        rw [List.length_cons, sumLens_cons]
        constructor
        · omega
        · rw [hh9, hsmall]
          omega
      · rw [writeLoop_cons_panic List.length p l h e rest hc hc2] at hw
        simp at hw

/-- Successfully processed entries compose: the loop on `es1 ++ es2`
continues from the state the loop on `es1` reached. -/
theorem writeLoop_append (cs : List Nat → Nat) (es1 es2 : List (List Nat)) :
    ∀ (p : Page) (l h : Nat) (q : Page) (l9 h9 : Nat),
    writeLoop cs p l h es1 = .ok q l9 h9 →
    writeLoop cs p l h (es1 ++ es2) = writeLoop cs q l9 h9 es2 := by
  induction es1 with
  | nil =>
    intro p l h q l9 h9 hw
    simp only [writeLoop, LoopResult.ok.injEq] at hw
    obtain ⟨hq, hl, hh⟩ := hw
    subst hq
    subst hl
    subst hh
    rw [List.nil_append]
  | cons e rest ih =>
    intro p l h q l9 h9 hw
    by_cases hc : h < cs e % 65536 ∨ l + 2 > PAGE_SIZE
    · rw [writeLoop_cons_fail cs p l h e rest hc] at hw
      simp at hw
    · by_cases hc2 : h - cs e % 65536 + cs e ≤ PAGE_SIZE ∧ cs e = e.length
      · rw [writeLoop_cons_step cs p l h e rest hc hc2] at hw
        rw [List.cons_append, writeLoop_cons_step cs p l h e (rest ++ es2) hc hc2]
        exact ih _ _ _ _ _ _ hw
      · rw [writeLoop_cons_panic cs p l h e rest hc hc2] at hw
        simp at hw

/-! ## Read-path lemmas -/

/-- The directory scan on a page with `lower = 18 + 2N` yields the `N`
pointers stored at bytes `18, 20, …`. -/
theorem readPointers_eq (page : Page) (N : Nat) (hN : 18 + 2 * N ≤ PAGE_SIZE) :
    readPointers page (18 + 2 * N)
      = some ((List.range N).map fun k => readLE page (18 + 2 * k) 2) := by
  simp only [readPointers]
  rw [show (18 + 2 * N - 18 + 1) / 2 = N from by omega, if_pos (Or.inr hN)]

instance : Inhabited TableMetadata := ⟨⟨0, []⟩⟩

instance : Inhabited ColumnMetadata := ⟨⟨0, 0, [], [], false⟩⟩

/-- If each pointer parses to the corresponding record, the parse loop
returns exactly the record list. -/
theorem parseEntries_of_pointwise {T : Type} [Inhabited T] (page : Page)
    (parse : Page → Nat → Option (T × Nat)) :
    ∀ (ptrs : List Nat) (ts : List T), ptrs.length = ts.length →
    (∀ k, k < ptrs.length →
      ∃ o, parse page (ptrs.getD k 0) = some (ts.getD k default, o)) →
    parseEntries page parse ptrs = some ts := by
  intro ptrs
  induction ptrs with
  | nil =>
    intro ts hlen _
    cases ts with
    | nil => rfl
    | cons t ts9 => simp at hlen
  | cons a rest ih =>
    intro ts hlen hpt
    cases ts with
    | nil => simp at hlen
    | cons t ts9 =>
      obtain ⟨o, ho⟩ := hpt 0 (by simp)
      simp only [List.getD_cons_zero] at ho
      have hrest : parseEntries page parse rest = some ts9 := by
        refine ih ts9 (by simpa using hlen) (fun k hk => ?_)
        obtain ⟨o9, ho9⟩ := hpt (k + 1) (by simp only [List.length_cons]; omega)
        simp only [List.getD_cons_succ] at ho9
        exact ⟨o9, ho9⟩
      simp only [parseEntries, ho, hrest]

/-- A single failing parse (a Rust panic in the model) aborts the whole
`read_metadata` parse loop. -/
theorem parseEntries_none_of_mem {T : Type} (page : Page)
    (parse : Page → Nat → Option (T × Nat)) :
    ∀ (ptrs : List Nat) (ptr : Nat), ptr ∈ ptrs → parse page ptr = none →
    parseEntries page parse ptrs = none := by
  intro ptrs
  induction ptrs with
  | nil => intro ptr hmem; simp at hmem
  | cons a rest ih =>
    intro ptr hmem hnone
    rcases List.mem_cons.mp hmem with heq | hmem9
    · subst heq
      simp only [parseEntries, hnone]
    · cases hpa : parse page a with
      | none => simp only [parseEntries, hpa]
      | some v =>
        have := ih ptr hmem9 hnone
        simp only [parseEntries, hpa, this]

/-! ## Byte-region reasoning and the catalog codecs -/

/-- `bytesAt p i bs`: the buffer holds exactly the bytes `bs` starting at
position `i`. -/
def bytesAt (p : Page) (i : Nat) (bs : List Nat) : Prop :=
  ∀ k, k < bs.length → p (i + k) = bs.getD k 0

theorem bytesAt_append_left (p : Page) (i : Nat) (a b : List Nat)
    (h : bytesAt p i (a ++ b)) : bytesAt p i a := by
  intro k hk
  have h1 := h k (by simp only [List.length_append]; omega)
  rwa [List.getD_append a b 0 k hk] at h1

theorem bytesAt_append_right (p : Page) (i : Nat) (a b : List Nat)
    (h : bytesAt p i (a ++ b)) : bytesAt p (i + a.length) b := by
  intro k hk
  have h1 := h (a.length + k) (by simp only [List.length_append]; omega)
  rw [List.getD_append_right a b 0 (a.length + k) (by omega)] at h1
  rw [show i + a.length + k = i + (a.length + k) from by omega]
  rwa [show a.length + k - a.length = k from by omega] at h1

/-- A little-endian region read back as the stored value (mod `256^k`). -/
theorem readLE_of_bytesAt (p : Page) (i v k : Nat)
    (h : bytesAt p i (toLeBytes k v)) : readLE p i k = v % 256 ^ k :=
  readLE_region k p i v (fun j hj => h j (by rwa [toLeBytes_length]))

/-- A raw region read back verbatim. -/
theorem readBytes_of_bytesAt (p : Page) (i : Nat) (bs : List Nat)
    (h : bytesAt p i bs) : readBytes p i bs.length = bs := by
  refine List.ext_getElem (by simp [readBytes]) ?_
  intro j h1 h2
  simp only [readBytes, List.getElem_map, List.getElem_range]
  rw [h j h2, List.getD_eq_getElem bs 0 h2]

/-- A `TableMetadata` value that a real Rust `TableMetadata` can denote:
`table_id` fits in `u32`, the name is a valid UTF-8 byte string of `u16`
length. -/
def validTable (t : TableMetadata) : Prop :=
  t.table_id < 4294967296 ∧ t.table_name.length < 65536 ∧
  (∀ b ∈ t.table_name, b < 256) ∧ utf8Valid t.table_name = true

/-- A `ColumnMetadata` value that a real Rust `ColumnMetadata` can denote. -/
def validColumn (c : ColumnMetadata) : Prop :=
  c.column_id < 4294967296 ∧ c.table_id < 4294967296 ∧
  c.column_name.length < 65536 ∧ (∀ b ∈ c.column_name, b < 256) ∧
  utf8Valid c.column_name = true ∧
  c.data_type.length < 65536 ∧ (∀ b ∈ c.data_type, b < 256) ∧
  utf8Valid c.data_type = true

instance (t : TableMetadata) : Decidable (validTable t) := by
  unfold validTable
  infer_instance

instance (c : ColumnMetadata) : Decidable (validColumn c) := by
  unfold validColumn
  infer_instance

theorem encodeTable_length (t : TableMetadata) :
    (encodeTable t).length = 6 + t.table_name.length := by
  simp [encodeTable, toLeBytes_length]
  omega

theorem encodeColumn_length (c : ColumnMetadata) :
    (encodeColumn c).length = 13 + c.column_name.length + c.data_type.length := by
  simp [encodeColumn, toLeBytes_length]
  omega

/-- Decoding a stored table record recovers it (valid record, in bounds). -/
theorem parseTableEntry_of_bytesAt (p : Page) (off : Nat) (t : TableMetadata)
    (hv : validTable t) (hbound : off + (encodeTable t).length ≤ PAGE_SIZE)
    (hb : bytesAt p off (encodeTable t)) :
    parseTableEntry p off = some (t, off + (encodeTable t).length) := by
  obtain ⟨hid, hlen, _, hutf⟩ := hv
  have hps : PAGE_SIZE = 8192 := rfl
  have hsize := encodeTable_length t
  have hb1 : bytesAt p off (toLeBytes 4 t.table_id ++ toLeBytes 2 t.table_name.length) :=
    bytesAt_append_left p off _ t.table_name hb
  have hbname : bytesAt p (off + 6) t.table_name := by
    have h1 := bytesAt_append_right p off
      (toLeBytes 4 t.table_id ++ toLeBytes 2 t.table_name.length) t.table_name hb
    rwa [show (toLeBytes 4 t.table_id ++ toLeBytes 2 t.table_name.length).length = 6
      from by simp [toLeBytes_length]] at h1
  have hbid : bytesAt p off (toLeBytes 4 t.table_id) :=
    bytesAt_append_left p off _ _ hb1
  have hbn : bytesAt p (off + 4) (toLeBytes 2 t.table_name.length) := by
    have h1 := bytesAt_append_right p off (toLeBytes 4 t.table_id)
      (toLeBytes 2 t.table_name.length) hb1
    rwa [toLeBytes_length] at h1
  have hidr : readLE p off 4 = t.table_id := by
    have h1 := readLE_of_bytesAt p off t.table_id 4 hbid
    rwa [Nat.mod_eq_of_lt (by norm_num; omega)] at h1
  have hnr : readLE p (off + 4) 2 = t.table_name.length := by
    have h1 := readLE_of_bytesAt p (off + 4) t.table_name.length 2 hbn
    rwa [Nat.mod_eq_of_lt (by norm_num; omega)] at h1
  have hname : readBytes p (off + 6) t.table_name.length = t.table_name :=
    readBytes_of_bytesAt p (off + 6) t.table_name hbname
  simp only [parseTableEntry, hnr]
  rw [if_pos (show off + 4 ≤ PAGE_SIZE from by omega),
    if_pos (show off + 4 + 2 ≤ PAGE_SIZE from by omega),
    if_pos (show off + 6 + t.table_name.length ≤ PAGE_SIZE from by omega),
    hname, if_pos hutf, hidr, hsize]
  simp [Nat.add_assoc]

/-- Decoding a stored column record recovers it (valid record, in bounds). -/
theorem parseColumnEntry_of_bytesAt (p : Page) (off : Nat) (c : ColumnMetadata)
    (hv : validColumn c) (hbound : off + (encodeColumn c).length ≤ PAGE_SIZE)
    (hb : bytesAt p off (encodeColumn c)) :
    parseColumnEntry p off = some (c, off + (encodeColumn c).length) := by
  obtain ⟨hcid, htid, hcnl, _, hcnu, hdtl, _, hdtu⟩ := hv
  have hps : PAGE_SIZE = 8192 := rfl
  have hsize := encodeColumn_length c
  -- peel the seven concatenated regions, left to right
  have hb6 : bytesAt p off
      (toLeBytes 4 c.column_id ++ toLeBytes 4 c.table_id ++
        toLeBytes 2 c.column_name.length ++ c.column_name ++
        toLeBytes 2 c.data_type.length ++ c.data_type) :=
    bytesAt_append_left p off _ _ hb
  have hbG : bytesAt p (off + 12 + c.column_name.length + c.data_type.length)
      [if c.is_nullable then 1 else 0] := by
    have h1 := bytesAt_append_right p off
      (toLeBytes 4 c.column_id ++ toLeBytes 4 c.table_id ++
        toLeBytes 2 c.column_name.length ++ c.column_name ++
        toLeBytes 2 c.data_type.length ++ c.data_type)
      [if c.is_nullable then 1 else 0] hb
    rwa [show (toLeBytes 4 c.column_id ++ toLeBytes 4 c.table_id ++
        toLeBytes 2 c.column_name.length ++ c.column_name ++
        toLeBytes 2 c.data_type.length ++ c.data_type).length
        = 12 + c.column_name.length + c.data_type.length from by
          simp only [List.length_append, toLeBytes_length]; try omega,
      show off + (12 + c.column_name.length + c.data_type.length)
        = off + 12 + c.column_name.length + c.data_type.length from by omega] at h1
  have hb5 : bytesAt p off
      (toLeBytes 4 c.column_id ++ toLeBytes 4 c.table_id ++
        toLeBytes 2 c.column_name.length ++ c.column_name ++
        toLeBytes 2 c.data_type.length) :=
    bytesAt_append_left p off _ _ hb6
  have hbF : bytesAt p (off + 12 + c.column_name.length) c.data_type := by
    have h1 := bytesAt_append_right p off
      (toLeBytes 4 c.column_id ++ toLeBytes 4 c.table_id ++
        toLeBytes 2 c.column_name.length ++ c.column_name ++
        toLeBytes 2 c.data_type.length) c.data_type hb6
    rwa [show (toLeBytes 4 c.column_id ++ toLeBytes 4 c.table_id ++
        toLeBytes 2 c.column_name.length ++ c.column_name ++
        toLeBytes 2 c.data_type.length).length = 12 + c.column_name.length from by
          simp only [List.length_append, toLeBytes_length]; omega,
      show off + (12 + c.column_name.length) = off + 12 + c.column_name.length
        from by omega] at h1
  have hb4 : bytesAt p off
      (toLeBytes 4 c.column_id ++ toLeBytes 4 c.table_id ++
        toLeBytes 2 c.column_name.length ++ c.column_name) :=
    bytesAt_append_left p off _ _ hb5
  have hbE : bytesAt p (off + 10 + c.column_name.length)
      (toLeBytes 2 c.data_type.length) := by
    have h1 := bytesAt_append_right p off
      (toLeBytes 4 c.column_id ++ toLeBytes 4 c.table_id ++
        toLeBytes 2 c.column_name.length ++ c.column_name)
      (toLeBytes 2 c.data_type.length) hb5
    rwa [show (toLeBytes 4 c.column_id ++ toLeBytes 4 c.table_id ++
        toLeBytes 2 c.column_name.length ++ c.column_name).length
        = 10 + c.column_name.length from by
          simp only [List.length_append, toLeBytes_length]; try omega,
      show off + (10 + c.column_name.length) = off + 10 + c.column_name.length
        from by omega] at h1
  have hb3 : bytesAt p off
      (toLeBytes 4 c.column_id ++ toLeBytes 4 c.table_id ++
        toLeBytes 2 c.column_name.length) :=
    bytesAt_append_left p off _ _ hb4
  have hbD : bytesAt p (off + 10) c.column_name := by
    have h1 := bytesAt_append_right p off
      (toLeBytes 4 c.column_id ++ toLeBytes 4 c.table_id ++
        toLeBytes 2 c.column_name.length) c.column_name hb4
    rwa [show (toLeBytes 4 c.column_id ++ toLeBytes 4 c.table_id ++
        toLeBytes 2 c.column_name.length).length = 10 from by
          simp only [List.length_append, toLeBytes_length]] at h1
  have hb2 : bytesAt p off (toLeBytes 4 c.column_id ++ toLeBytes 4 c.table_id) :=
    bytesAt_append_left p off _ _ hb3
  have hbC : bytesAt p (off + 8) (toLeBytes 2 c.column_name.length) := by
    have h1 := bytesAt_append_right p off
      (toLeBytes 4 c.column_id ++ toLeBytes 4 c.table_id)
      (toLeBytes 2 c.column_name.length) hb3
    rwa [show (toLeBytes 4 c.column_id ++ toLeBytes 4 c.table_id).length = 8 from by
      simp only [List.length_append, toLeBytes_length]] at h1
  have hbA : bytesAt p off (toLeBytes 4 c.column_id) :=
    bytesAt_append_left p off _ _ hb2
  have hbB : bytesAt p (off + 4) (toLeBytes 4 c.table_id) := by
    have h1 := bytesAt_append_right p off (toLeBytes 4 c.column_id)
      (toLeBytes 4 c.table_id) hb2
    rwa [toLeBytes_length] at h1
  -- field reads
  have hcidr : readLE p off 4 = c.column_id := by
    have h1 := readLE_of_bytesAt p off c.column_id 4 hbA
    rwa [Nat.mod_eq_of_lt (by norm_num; omega)] at h1
  have htidr : readLE p (off + 4) 4 = c.table_id := by
    have h1 := readLE_of_bytesAt p (off + 4) c.table_id 4 hbB
    rwa [Nat.mod_eq_of_lt (by norm_num; omega)] at h1
  have hcnlr : readLE p (off + 8) 2 = c.column_name.length := by
    have h1 := readLE_of_bytesAt p (off + 8) c.column_name.length 2 hbC
    rwa [Nat.mod_eq_of_lt (by norm_num; omega)] at h1
  have hdtlr : readLE p (off + 10 + c.column_name.length) 2 = c.data_type.length := by
    have h1 := readLE_of_bytesAt p (off + 10 + c.column_name.length)
      c.data_type.length 2 hbE
    rwa [Nat.mod_eq_of_lt (by norm_num; omega)] at h1
  have hcn : readBytes p (off + 10) c.column_name.length = c.column_name :=
    readBytes_of_bytesAt p (off + 10) c.column_name hbD
  have hdt : readBytes p (off + 12 + c.column_name.length) c.data_type.length
      = c.data_type :=
    readBytes_of_bytesAt p (off + 12 + c.column_name.length) c.data_type hbF
  have hnulv : p (off + 12 + c.column_name.length + c.data_type.length)
      = if c.is_nullable then 1 else 0 := by
    have h1 := hbG 0 (by simp)
    simpa using h1
  have hnul : (p (off + 12 + c.column_name.length + c.data_type.length) != 0)
      = c.is_nullable := by
    rw [hnulv]
    cases c.is_nullable <;> rfl
  simp only [parseColumnEntry, hcnlr, hdtlr]
  rw [if_pos (show off + 4 ≤ PAGE_SIZE from by omega),
    if_pos (show off + 4 + 4 ≤ PAGE_SIZE from by omega),
    if_pos (show off + 8 + 2 ≤ PAGE_SIZE from by omega),
    if_pos (show off + 10 + c.column_name.length ≤ PAGE_SIZE from by omega),
    hcn, if_pos hcnu,
    if_pos (show off + 10 + c.column_name.length + 2 ≤ PAGE_SIZE from by omega),
    if_pos (show off + 12 + c.column_name.length + c.data_type.length ≤ PAGE_SIZE
      from by omega),
    hdt, if_pos hdtu,
    if_pos (show off + 12 + c.column_name.length + c.data_type.length < PAGE_SIZE
      from by omega),
    hcidr, htidr, hnul, hsize]
  simp only [Option.some.injEq, Prod.mk.injEq]
  constructor
  · trivial
  · omega

/-- Generic append-then-read round trip on a fresh page, for any codec whose
decoder recovers encoded records in place. -/
theorem create_lower : readLE create_postgres_file 12 2 = 18 := by decide

theorem create_higher : readLE create_postgres_file 14 2 = PAGE_SIZE := by decide

/-- Unfolding `read_metadata` once the directory scan result is known. -/
theorem read_metadata_eq_of_ptrs {T : Type} (page : Page)
    (parse : Page → Nat → Option (T × Nat)) (ptrs : List Nat)
    (h : readPointers page (readLE page 12 2) = some ptrs) :
    read_metadata page parse = parseEntries page parse ptrs := by
  unfold read_metadata
  rw [h]

theorem read_after_append {T : Type} [Inhabited T]
    (encode : T → List Nat) (parse : Page → Nat → Option (T × Nat))
    (valid : T → Prop)
    (hparse : ∀ (p : Page) (off : Nat) (t : T), valid t →
      off + (encode t).length ≤ PAGE_SIZE → bytesAt p off (encode t) →
      parse p off = some (t, off + (encode t).length))
    (ts : List T)
    (hval : ∀ t ∈ ts, valid t)
    (hfit : 18 + 2 * ts.length + sumLens (ts.map encode) ≤ PAGE_SIZE) :
    ∃ p9, write_metadata List.length create_postgres_file (ts.map encode) = .ok p9
      ∧ read_metadata p9 parse = some ts := by
  have hps : PAGE_SIZE = 8192 := rfl
  have hlenm : (ts.map encode).length = ts.length := List.length_map ts encode
  obtain ⟨p9, hok, h12, h14, _, _, hrec⟩ :=
    write_metadata_spec (ts.map encode) create_postgres_file 18 PAGE_SIZE
      create_lower create_higher (by omega) (le_refl _) (by omega)
  refine ⟨p9, hok, ?_⟩
  rw [hlenm] at h12 hrec
  have hptrs : readPointers p9 (18 + 2 * ts.length)
      = some ((List.range ts.length).map fun k => readLE p9 (18 + 2 * k) 2) :=
    readPointers_eq p9 ts.length (by omega)
  rw [read_metadata_eq_of_ptrs p9 parse _ (by rw [h12]; exact hptrs)]
  refine parseEntries_of_pointwise p9 parse _ ts
    (by rw [List.length_map, List.length_range]) ?_
  intro k hk
  rw [List.length_map, List.length_range] at hk
  have hgetptr : ((List.range ts.length).map fun k => readLE p9 (18 + 2 * k) 2).getD k 0
      = readLE p9 (18 + 2 * k) 2 := by
    rw [List.getD_eq_getElem _ _ (by rw [List.length_map, List.length_range]; exact hk)]
    simp
  have hgetenc : (ts.map encode).getD k [] = encode (ts.getD k default) := by
    rw [List.getD_eq_getElem _ _ (by rw [List.length_map]; exact hk),
      List.getD_eq_getElem _ _ hk]
    simp
  have hmemk : ts.getD k default ∈ ts := by
    rw [List.getD_eq_getElem _ _ hk]
    exact List.getElem_mem hk
  obtain ⟨hdir, hbytes⟩ := hrec k hk
  have hsucc := sumLens_take_succ (ts.map encode) k (by rw [List.length_map]; exact hk)
  have htle1 := sumLens_take_le (ts.map encode) (k + 1)
  have htle := sumLens_take_le (ts.map encode) k
  have hbnd : PAGE_SIZE - sumLens ((ts.map encode).take (k + 1))
      + (encode (ts.getD k default)).length ≤ PAGE_SIZE := by
    rw [← hgetenc]
    omega
  have hbat : bytesAt p9 (PAGE_SIZE - sumLens ((ts.map encode).take (k + 1)))
      (encode (ts.getD k default)) := by
    rw [← hgetenc]
    intro kk hkk
    exact hbytes kk hkk
  have hoff : readLE p9 (18 + 2 * k) 2
      = PAGE_SIZE - sumLens ((ts.map encode).take (k + 1)) := hdir
  refine ⟨PAGE_SIZE - sumLens ((ts.map encode).take (k + 1))
      + (encode (ts.getD k default)).length, ?_⟩
  rw [hgetptr, hoff]
  exact hparse p9 _ (ts.getD k default) (hval _ hmemk) hbnd hbat

/-! ## Claim theorems -/

/-- An all-zero page buffer. -/
def zeroPage : Page := fun _ => 0

/-- **C7.** Page creation writes an 8192-byte page whose bytes outside the
18-byte header are all zero and whose header holds `lsn = 12345678`,
`checksum = 42`, `flags = 40`, `lower = 18`, `higher = 8192`,
`special_space = 8192`, each little-endian at its fixed offset; reading
records from this fresh page (with either catalog codec) returns the empty
sequence. -/
theorem c7_create_page :
    (∀ i, i < PAGE_SIZE → 18 ≤ i → create_postgres_file i = 0) ∧
    readLE create_postgres_file 0 8 = 12345678 ∧
    readLE create_postgres_file 8 2 = 42 ∧
    readLE create_postgres_file 10 2 = 40 ∧
    readLE create_postgres_file 12 2 = 18 ∧
    readLE create_postgres_file 14 2 = 8192 ∧
    readLE create_postgres_file 16 2 = 8192 ∧
    read_postgres_class create_postgres_file = some [] ∧
    read_postgres_attribute create_postgres_file = some [] := by
  refine ⟨?_, by decide, by decide, by decide, by decide, by decide, by decide,
    by decide, by decide⟩
  intro i _ h18
  simp only [create_postgres_file, writeBytes, toLeBytes_length]
  rw [if_neg (by omega), if_neg (by omega), if_neg (by omega), if_neg (by omega),
    if_neg (by omega), if_neg (by omega)]

/-- **C1.** Round trip: for every ordered sequence `R` of valid records
(table descriptors or column descriptors) that fits in one page
(`18 + 2‖R‖ + Σ encoded sizes ≤ 8192`), appending `R` to a freshly created
page succeeds and reading the page back returns exactly `R` — same number of
records, same field values (including `is_nullable`), in the same order. -/
theorem c1_round_trip :
    (∀ tables : List TableMetadata, (∀ t ∈ tables, validTable t) →
      18 + 2 * tables.length + sumLens (tables.map encodeTable) ≤ PAGE_SIZE →
      ∃ p9, write_postgres_class create_postgres_file tables = .ok p9
        ∧ read_postgres_class p9 = some tables) ∧
    (∀ columns : List ColumnMetadata, (∀ c ∈ columns, validColumn c) →
      18 + 2 * columns.length + sumLens (columns.map encodeColumn) ≤ PAGE_SIZE →
      ∃ p9, write_postgres_attribute create_postgres_file columns = .ok p9
        ∧ read_postgres_attribute p9 = some columns) := by
  constructor
  · intro tables hval hfit
    exact read_after_append encodeTable parseTableEntry validTable
      parseTableEntry_of_bytesAt tables hval hfit
  · intro columns hval hfit
    exact read_after_append encodeColumn parseColumnEntry validColumn
      parseColumnEntry_of_bytesAt columns hval hfit

/-- Witness for C1: the spec's scenario record
`{column_id: 1, table_id: 42, column_name: "user_id", data_type: "INTEGER",
is_nullable: false}` round-trips, as does a one-table batch. -/
theorem c1_round_trip_witness :
    (∃ p9, write_postgres_class create_postgres_file [⟨1, [97, 98]⟩] = .ok p9
      ∧ read_postgres_class p9 = some [⟨1, [97, 98]⟩]) ∧
    (∃ p9, write_postgres_attribute create_postgres_file
        [⟨1, 42, [117, 115, 101, 114, 95, 105, 100],
          [73, 78, 84, 69, 71, 69, 82], false⟩] = .ok p9
      ∧ read_postgres_attribute p9
        = some [⟨1, 42, [117, 115, 101, 114, 95, 105, 100],
            [73, 78, 84, 69, 71, 69, 82], false⟩]) :=
  ⟨c1_round_trip.1 [⟨1, [97, 98]⟩] (by decide) (by decide),
   c1_round_trip.2 [⟨1, 42, [117, 115, 101, 114, 95, 105, 100],
      [73, 78, 84, 69, 71, 69, 82], false⟩] (by decide) (by decide)⟩

/-- **C2.** If a batch write fails with `SpaceExhausted` then the on-disk
page file is byte-for-byte unchanged by the call, and a subsequent read of
the page yields exactly the records that existed before the failing call. -/
theorem c2_space_exhausted_no_partial_write (cs : List Nat → Nat) (p : Page)
    (entries : List (List Nat))
    (hw : write_metadata cs p entries = .spaceExhausted) :
    diskAfter cs p entries = p ∧
    (∀ (T : Type) (parse : Page → Nat → Option (T × Nat)),
      read_metadata (diskAfter cs p entries) parse = read_metadata p parse) := by
  have hd : diskAfter cs p entries = p := diskAfter_of_spaceExhausted cs p entries hw
  exact ⟨hd, fun T parse => by rw [hd]⟩

/-- Witness for C2: a page with `higher = 0` rejects a 1-byte record and the
file is untouched. -/
theorem c2_space_exhausted_no_partial_write_witness :
    diskAfter List.length zeroPage [[0]] = zeroPage ∧
    (∀ (T : Type) (parse : Page → Nat → Option (T × Nat)),
      read_metadata (diskAfter List.length zeroPage [[0]]) parse
        = read_metadata zeroPage parse) :=
  c2_space_exhausted_no_partial_write List.length zeroPage [[0]] (by rfl)

/-- A successful `write_metadata` call replaces the one-page file. -/
theorem diskAfter_of_ok (cs : List Nat → Nat) (p : Page)
    (entries : List (List Nat)) (p9 : Page)
    (hw : write_metadata cs p entries = .ok p9) :
    diskAfter cs p entries = p9 := by
  unfold diskAfter
  rw [hw]

/-- **C3, counterexample.** From the freshly created page — a reachable
state satisfying `18 ≤ lower ≤ higher ≤ 8192` — the batch
`[8092-byte record, 90-byte record]` is accepted (the allocator never
compares the new `higher` against `lower`), and the resulting page has
`lower = 22 > higher = 10`: the invariant is not preserved. -/
theorem c3_counterexample :
    (18 ≤ readLE create_postgres_file 12 2 ∧
     readLE create_postgres_file 12 2 ≤ readLE create_postgres_file 14 2 ∧
     readLE create_postgres_file 14 2 ≤ PAGE_SIZE) ∧
    (write_metadata List.length create_postgres_file
      [List.replicate 8092 0, List.replicate 90 0]).isOk = true ∧
    readLE (diskAfter List.length create_postgres_file
      [List.replicate 8092 0, List.replicate 90 0]) 12 2 = 22 ∧
    readLE (diskAfter List.length create_postgres_file
      [List.replicate 8092 0, List.replicate 90 0]) 14 2 = 10 ∧
    ¬((22 : Nat) ≤ 10) := by
  obtain ⟨q, hloop1, _, _⟩ :=
    writeLoop_ok [List.replicate 8092 0] create_postgres_file 18 PAGE_SIZE
      (le_refl _) (by norm_num [sumLens, PAGE_SIZE])
  have e1 : 18 + 2 * [List.replicate 8092 (0:Nat)].length = 20 := by norm_num
  have e2 : PAGE_SIZE - sumLens [List.replicate 8092 (0:Nat)] = 100 := by
    norm_num [sumLens, PAGE_SIZE]
  rw [e1, e2] at hloop1
  have hno2 : ¬(100 < List.length (List.replicate 90 (0:Nat)) % 65536
      ∨ 20 + 2 > PAGE_SIZE) := by
    rw [List.length_replicate]
    decide
  have hcopy2 : 100 - List.length (List.replicate 90 (0:Nat)) % 65536
      + List.length (List.replicate 90 (0:Nat)) ≤ PAGE_SIZE
      ∧ List.length (List.replicate 90 (0:Nat)) = (List.replicate 90 (0:Nat)).length := by
    rw [List.length_replicate]
    decide
  have hex : ∃ q2, writeLoop List.length create_postgres_file 18 PAGE_SIZE
      [List.replicate 8092 0, List.replicate 90 0] = .ok q2 22 10 := by
    refine ⟨writeBytes (writeBytes q 20 (toLeBytes 2 10)) 10 (List.replicate 90 0), ?_⟩
    rw [show [List.replicate 8092 (0:Nat), List.replicate 90 0]
        = [List.replicate 8092 0] ++ [List.replicate 90 0] from rfl,
      writeLoop_append List.length [List.replicate 8092 0] [List.replicate 90 0]
        create_postgres_file 18 PAGE_SIZE q 20 100 hloop1,
      writeLoop_cons_step List.length q 20 100 (List.replicate 90 0) [] hno2 hcopy2,
      show 100 - List.length (List.replicate 90 (0:Nat)) % 65536 = 10 from by norm_num]
    norm_num [writeLoop]
  obtain ⟨q2, hloopfull⟩ := hex
  have hwm := write_metadata_of_loop List.length create_postgres_file
    [List.replicate 8092 0, List.replicate 90 0] q2 22 10
    (by rw [create_lower, create_higher]; exact hloopfull)
  have hda := diskAfter_of_ok List.length create_postgres_file
    [List.replicate 8092 0, List.replicate 90 0] _ hwm
  refine ⟨by decide, ?_, ?_, ?_, by decide⟩
  · rw [hwm]
    rfl
  · rw [hda, final_header_lower]
  · rw [hda, final_header_higher]

/-- **C3, amended.** The invariant `18 ≤ lower ≤ higher ≤ 8192` holds on the
freshly created page.  A successful batch write preserves `18 ≤ lower`,
`lower ≤ 8192` and `higher ≤ 8192` (lower only grows in checked steps of 2,
higher only shrinks), but it does not preserve `lower ≤ higher`: the
allocator never compares the two cursors (see the counterexample). -/
theorem c3_invariant_amended :
    (18 ≤ readLE create_postgres_file 12 2 ∧
     readLE create_postgres_file 12 2 ≤ readLE create_postgres_file 14 2 ∧
     readLE create_postgres_file 14 2 ≤ PAGE_SIZE) ∧
    (∀ (cs : List Nat → Nat) (p : Page) (entries : List (List Nat)) (p9 : Page),
      18 ≤ readLE p 12 2 → readLE p 12 2 ≤ PAGE_SIZE → readLE p 14 2 ≤ PAGE_SIZE →
      write_metadata cs p entries = .ok p9 →
      18 ≤ readLE p9 12 2 ∧ readLE p9 12 2 ≤ PAGE_SIZE ∧
        readLE p9 14 2 ≤ PAGE_SIZE) := by
  refine ⟨by decide, ?_⟩
  intro cs p entries p9 h18 hlp hhp hw
  obtain ⟨q, l9, h9, hloop, hfin⟩ := write_metadata_ok_inv cs p entries p9 hw
  obtain ⟨hll9, hl9p, hh9⟩ := writeLoop_ok_bounds cs entries p _ _ q l9 h9 hlp hloop
  subst hfin
  have hps : PAGE_SIZE = 8192 := rfl
  rw [final_header_lower, final_header_higher,
    Nat.mod_eq_of_lt (show l9 < 65536 from by omega),
    Nat.mod_eq_of_lt (show h9 < 65536 from by omega)]
  omega

/-- Witness for the amended C3: the empty batch on a fresh page. -/
theorem c3_invariant_amended_witness :
    18 ≤ readLE (writeBytes (writeBytes create_postgres_file 14
        (toLeBytes 2 PAGE_SIZE)) 12 (toLeBytes 2 18)) 12 2 ∧
    readLE (writeBytes (writeBytes create_postgres_file 14
        (toLeBytes 2 PAGE_SIZE)) 12 (toLeBytes 2 18)) 12 2 ≤ PAGE_SIZE ∧
    readLE (writeBytes (writeBytes create_postgres_file 14
        (toLeBytes 2 PAGE_SIZE)) 12 (toLeBytes 2 18)) 14 2 ≤ PAGE_SIZE :=
  c3_invariant_amended.2 List.length create_postgres_file []
    (writeBytes (writeBytes create_postgres_file 14 (toLeBytes 2 PAGE_SIZE))
      12 (toLeBytes 2 18))
    (by decide) (by decide) (by decide) (by rfl)

/-- **C4, counterexample.** On the fresh page (`lower = 18`, `higher = 8192`)
a record of encoded size `higher - lower - 1 = 8173` — one byte beyond the
claimed boundary — is accepted, not rejected with `SpaceExhausted`. -/
theorem c4_counterexample :
    readLE create_postgres_file 14 2 - readLE create_postgres_file 12 2 - 1 = 8173 ∧
    (List.replicate 8173 (0:Nat)).length
      = readLE create_postgres_file 14 2 - readLE create_postgres_file 12 2 - 1 ∧
    (write_metadata List.length create_postgres_file
      [List.replicate 8173 0]).isOk = true ∧
    write_metadata List.length create_postgres_file [List.replicate 8173 0]
      ≠ .spaceExhausted := by
  have hno : ¬(PAGE_SIZE < List.length (List.replicate 8173 (0:Nat)) % 65536
      ∨ 18 + 2 > PAGE_SIZE) := by
    rw [List.length_replicate]
    decide
  have hcopy : PAGE_SIZE - List.length (List.replicate 8173 (0:Nat)) % 65536
      + List.length (List.replicate 8173 (0:Nat)) ≤ PAGE_SIZE
      ∧ List.length (List.replicate 8173 (0:Nat))
        = (List.replicate 8173 (0:Nat)).length := by
    rw [List.length_replicate]
    decide
  have hloop : writeLoop List.length create_postgres_file 18 PAGE_SIZE
      [List.replicate 8173 0]
      = .ok (writeBytes (writeBytes create_postgres_file 18
          (toLeBytes 2 (PAGE_SIZE - List.length (List.replicate 8173 (0:Nat)) % 65536)))
          (PAGE_SIZE - List.length (List.replicate 8173 (0:Nat)) % 65536)
          (List.replicate 8173 0))
        (18 + 2) (PAGE_SIZE - List.length (List.replicate 8173 (0:Nat)) % 65536) := by
    rw [writeLoop_cons_step List.length create_postgres_file 18 PAGE_SIZE
      (List.replicate 8173 0) [] hno hcopy]
    rfl
  have hwm := write_metadata_of_loop List.length create_postgres_file
    [List.replicate 8173 0] _ _ _
    (by rw [create_lower, create_higher]; exact hloop)
  refine ⟨by decide, by rw [List.length_replicate]; decide, ?_, ?_⟩
  · rw [hwm]
    rfl
  · rw [hwm]
    intro h
    exact WriteResult.noConfusion h

/-- **C4, amended.** On a page state with `18 ≤ lower`,
`lower + 2 ≤ higher ≤ 8192`: a single record of encoded size exactly
`higher - lower - 2` succeeds, and so does one of size `higher - lower - 1`
(the allocator never compares against `lower`).  A single-record append
fails with `SpaceExhausted` exactly when `higher < size % 2^16` or
`lower + 2 > 8192`. -/
theorem c4_boundary_amended (p : Page) (e : List Nat) :
    (18 ≤ readLE p 12 2 → readLE p 12 2 + 2 ≤ readLE p 14 2 →
      readLE p 14 2 ≤ PAGE_SIZE →
      (e.length = readLE p 14 2 - readLE p 12 2 - 2 ∨
       e.length = readLE p 14 2 - readLE p 12 2 - 1) →
      ∃ p9, write_metadata List.length p [e] = .ok p9) ∧
    (write_metadata List.length p [e] = .spaceExhausted ↔
      (readLE p 14 2 < e.length % 65536 ∨ readLE p 12 2 + 2 > PAGE_SIZE)) := by
  have hps : PAGE_SIZE = 8192 := rfl
  constructor
  · intro h18 hlh hhp hsz
    have hmod : List.length e % 65536 = e.length := Nat.mod_eq_of_lt (by omega)
    have hno : ¬(readLE p 14 2 < List.length e % 65536
        ∨ readLE p 12 2 + 2 > PAGE_SIZE) := by
      rw [hmod]
      omega
    have hcopy : readLE p 14 2 - List.length e % 65536 + List.length e ≤ PAGE_SIZE
        ∧ List.length e = e.length := by
      rw [hmod]
      exact ⟨by omega, rfl⟩
    have hloop : writeLoop List.length p (readLE p 12 2) (readLE p 14 2) [e]
        = .ok (writeBytes (writeBytes p (readLE p 12 2)
            (toLeBytes 2 (readLE p 14 2 - List.length e % 65536)))
            (readLE p 14 2 - List.length e % 65536) e)
          (readLE p 12 2 + 2) (readLE p 14 2 - List.length e % 65536) := by
      rw [writeLoop_cons_step List.length p (readLE p 12 2) (readLE p 14 2) e []
        hno hcopy]
      rfl
    exact ⟨_, write_metadata_of_loop List.length p [e] _ _ _ hloop⟩
  · constructor
    · intro hw
      by_contra hc
      by_cases hc2 : readLE p 14 2 - List.length e % 65536 + List.length e ≤ PAGE_SIZE
          ∧ List.length e = e.length
      · have hloop : writeLoop List.length p (readLE p 12 2) (readLE p 14 2) [e]
            = .ok (writeBytes (writeBytes p (readLE p 12 2)
                (toLeBytes 2 (readLE p 14 2 - List.length e % 65536)))
                (readLE p 14 2 - List.length e % 65536) e)
              (readLE p 12 2 + 2) (readLE p 14 2 - List.length e % 65536) := by
          rw [writeLoop_cons_step List.length p (readLE p 12 2) (readLE p 14 2) e []
            hc hc2]
          rfl
        have hwm := write_metadata_of_loop List.length p [e] _ _ _ hloop
        rw [hwm] at hw
        simp at hw
      · have hpl := writeLoop_cons_panic List.length p (readLE p 12 2) (readLE p 14 2)
          e [] hc hc2
        rw [write_metadata, hpl] at hw
        simp at hw
    · intro hcond
      have hfail := writeLoop_cons_fail List.length p (readLE p 12 2) (readLE p 14 2)
        e [] hcond
      rw [write_metadata, hfail]

/-- Witness for the amended C4: the exact-fit record of size
`8192 - 18 - 2 = 8172` on a fresh page. -/
theorem c4_boundary_amended_witness :
    ∃ p9, write_metadata List.length create_postgres_file
      [List.replicate 8172 0] = .ok p9 :=
  (c4_boundary_amended create_postgres_file (List.replicate 8172 0)).1
    (by decide) (by decide) (by decide)
    (Or.inl (by rw [List.length_replicate]; decide))

/-- **C5, counterexample.** A record whose true size is `65536` escapes the
space check (the code compares `higher` against `entry_size as u16 = 0`),
so instead of failing with `SpaceExhausted` as the claim requires when
`higher < record_size`, the batch write aborts with a panic at the tuple
copy. -/
theorem c5_counterexample :
    readLE create_postgres_file 14 2 < (List.replicate 65536 (0:Nat)).length ∧
    write_metadata List.length create_postgres_file [List.replicate 65536 0]
      = .panicked := by
  constructor
  · rw [List.length_replicate]
    decide
  · have hno : ¬(PAGE_SIZE < List.length (List.replicate 65536 (0:Nat)) % 65536
        ∨ 18 + 2 > PAGE_SIZE) := by
      rw [List.length_replicate]
      decide
    have hbad : ¬(PAGE_SIZE - List.length (List.replicate 65536 (0:Nat)) % 65536
        + List.length (List.replicate 65536 (0:Nat)) ≤ PAGE_SIZE
        ∧ List.length (List.replicate 65536 (0:Nat))
          = (List.replicate 65536 (0:Nat)).length) := by
      rw [List.length_replicate]
      decide
    have hpl := writeLoop_cons_panic List.length create_postgres_file 18 PAGE_SIZE
      (List.replicate 65536 0) [] hno hbad
    rw [write_metadata, create_lower, create_higher, hpl]

/-- **C5, amended.** At any loop state, processing a record fails with
`SpaceExhausted` (before any mutation) when
`higher < size % 2^16 ∨ lower + 2 > 8192`, where the size is the computed
`calculate_size` value truncated to `u16`; for a single-record batch this
condition is exact.  A `SpaceExhausted` call leaves the on-disk page
byte-for-byte unchanged. -/
theorem c5_alloc_check_amended (cs : List Nat → Nat) (p : Page) :
    (∀ (l h : Nat) (e : List Nat) (rest : List (List Nat)),
      (h < cs e % 65536 ∨ l + 2 > PAGE_SIZE) →
      writeLoop cs p l h (e :: rest) = .spaceExhausted) ∧
    (∀ (l h : Nat) (e : List Nat),
      writeLoop cs p l h [e] = .spaceExhausted ↔
        (h < cs e % 65536 ∨ l + 2 > PAGE_SIZE)) ∧
    (∀ entries, write_metadata cs p entries = .spaceExhausted →
      diskAfter cs p entries = p) := by
  refine ⟨fun l h e rest hyes => writeLoop_cons_fail cs p l h e rest hyes, ?_, ?_⟩
  · intro l h e
    constructor
    · intro hw
      by_contra hc
      by_cases hc2 : h - cs e % 65536 + cs e ≤ PAGE_SIZE ∧ cs e = e.length
      · rw [writeLoop_cons_step cs p l h e [] hc hc2] at hw
        simp only [writeLoop] at hw
        exact LoopResult.noConfusion hw
      · rw [writeLoop_cons_panic cs p l h e [] hc hc2] at hw
        exact LoopResult.noConfusion hw
    · exact writeLoop_cons_fail cs p l h e []
  · exact fun entries hw => diskAfter_of_spaceExhausted cs p entries hw

/-- Witness for the amended C5: a page with `higher = 0` rejects a 1-byte
record before any mutation, and the file stays unchanged. -/
theorem c5_alloc_check_amended_witness :
    writeLoop List.length zeroPage 18 0 [[0]] = .spaceExhausted ∧
    diskAfter List.length zeroPage [[0]] = zeroPage :=
  ⟨(c5_alloc_check_amended List.length zeroPage).1 18 0 [0] [] (by decide),
   (c5_alloc_check_amended List.length zeroPage).2.2 [[0]] (by rfl)⟩

/-- **C6, counterexample.** The batch `[8092-byte record, 92-byte record]`
is appended successfully to a fresh page, but the second record is copied to
offset 8 and overwrites the directory: the 2-byte entry at byte 18 of the
final page reads 0, not the offset `8192 - 8092 = 100` at which the first
record was stored. -/
theorem c6_counterexample :
    (write_metadata List.length create_postgres_file
      [List.replicate 8092 0, List.replicate 92 0]).isOk = true ∧
    PAGE_SIZE - sumLens ([List.replicate 8092 (0:Nat), List.replicate 92 0].take 1)
      = 100 ∧
    readLE (diskAfter List.length create_postgres_file
      [List.replicate 8092 0, List.replicate 92 0]) 18 2 = 0 ∧
    (0 : Nat) ≠ 100 := by
  obtain ⟨q, hloop1, _, _⟩ :=
    writeLoop_ok [List.replicate 8092 0] create_postgres_file 18 PAGE_SIZE
      (le_refl _) (by norm_num [sumLens, PAGE_SIZE])
  have e1 : 18 + 2 * [List.replicate 8092 (0:Nat)].length = 20 := by norm_num
  have e2 : PAGE_SIZE - sumLens [List.replicate 8092 (0:Nat)] = 100 := by
    norm_num [sumLens, PAGE_SIZE]
  rw [e1, e2] at hloop1
  have hno2 : ¬(100 < List.length (List.replicate 92 (0:Nat)) % 65536
      ∨ 20 + 2 > PAGE_SIZE) := by
    rw [List.length_replicate]
    decide
  have hcopy2 : 100 - List.length (List.replicate 92 (0:Nat)) % 65536
      + List.length (List.replicate 92 (0:Nat)) ≤ PAGE_SIZE
      ∧ List.length (List.replicate 92 (0:Nat)) = (List.replicate 92 (0:Nat)).length := by
    rw [List.length_replicate]
    decide
  have hloopfull : writeLoop List.length create_postgres_file 18 PAGE_SIZE
      [List.replicate 8092 0, List.replicate 92 0]
      = .ok (writeBytes (writeBytes q 20 (toLeBytes 2 8)) 8 (List.replicate 92 0))
          22 8 := by
    rw [show [List.replicate 8092 (0:Nat), List.replicate 92 0]
        = [List.replicate 8092 0] ++ [List.replicate 92 0] from rfl,
      writeLoop_append List.length [List.replicate 8092 0] [List.replicate 92 0]
        create_postgres_file 18 PAGE_SIZE q 20 100 hloop1,
      writeLoop_cons_step List.length q 20 100 (List.replicate 92 0) [] hno2 hcopy2,
      show 100 - List.length (List.replicate 92 (0:Nat)) % 65536 = 8 from by norm_num]
    norm_num [writeLoop]
  have hwm := write_metadata_of_loop List.length create_postgres_file
    [List.replicate 8092 0, List.replicate 92 0] _ 22 8
    (by rw [create_lower, create_higher]; exact hloopfull)
  have hda := diskAfter_of_ok List.length create_postgres_file
    [List.replicate 8092 0, List.replicate 92 0] _ hwm
  refine ⟨?_, by norm_num [sumLens, PAGE_SIZE], ?_, by decide⟩
  · rw [hwm]
    rfl
  · rw [hda, readLE_two,
      final_header_frame (writeBytes (writeBytes q 20 (toLeBytes 2 8)) 8
        (List.replicate 92 0)) 22 8 18 (by omega),
      final_header_frame (writeBytes (writeBytes q 20 (toLeBytes 2 8)) 8
        (List.replicate 92 0)) 22 8 19 (by omega),
      writeBytes_apply_mem (writeBytes q 20 (toLeBytes 2 8)) 8
        (List.replicate 92 0) 18 (by omega) (by rw [List.length_replicate]; omega),
      writeBytes_apply_mem (writeBytes q 20 (toLeBytes 2 8)) 8
        (List.replicate 92 0) 19 (by omega) (by rw [List.length_replicate]; omega),
      getD_replicate 92 (18 - 8) (by omega), getD_replicate 92 (19 - 8) (by omega)]

/-- **C6, amended.** After successfully appending `N` records of sizes
`s₁ … s_N` to a freshly created page, `lower = 18 + 2N` and
`higher = 8192 - Σ sᵢ` always hold — for every successful batch, fitting or
not; provided additionally the batch fits (`18 + 2N + Σ sᵢ ≤ 8192`, so the
tuple area cannot overwrite the directory), the 2-byte little-endian
directory entry at byte `18 + 2i` holds the tuple offset
`8192 - Σ_{j ≤ i} s_j` of record `i`, whose bytes are stored there. -/
theorem c6_directory_growth_amended :
    (∀ (entries : List (List Nat)) (p9 : Page),
      write_metadata List.length create_postgres_file entries = .ok p9 →
      readLE p9 12 2 = 18 + 2 * entries.length ∧
      readLE p9 14 2 = PAGE_SIZE - sumLens entries) ∧
    (∀ entries : List (List Nat),
      18 + 2 * entries.length + sumLens entries ≤ PAGE_SIZE →
      ∃ p9, write_metadata List.length create_postgres_file entries = .ok p9
        ∧ readLE p9 12 2 = 18 + 2 * entries.length
        ∧ readLE p9 14 2 = PAGE_SIZE - sumLens entries
        ∧ ∀ i, i < entries.length →
            readLE p9 (18 + 2 * i) 2 = PAGE_SIZE - sumLens (entries.take (i + 1))
            ∧ ∀ k, k < (entries.getD i []).length →
                p9 (PAGE_SIZE - sumLens (entries.take (i + 1)) + k)
                  = (entries.getD i []).getD k 0) := by
  constructor
  · intro entries p9 hw
    obtain ⟨q, l9, h9, hloop, hfin⟩ :=
      write_metadata_ok_inv List.length create_postgres_file entries p9 hw
    rw [create_lower, create_higher] at hloop
    obtain ⟨hl9, hh9⟩ := writeLoop_ok_values entries create_postgres_file
      18 PAGE_SIZE q l9 h9 hloop
    obtain ⟨_, hl9p, hh9p⟩ := writeLoop_ok_bounds List.length entries
      create_postgres_file 18 PAGE_SIZE q l9 h9 (by decide) hloop
    subst hfin
    have hps : PAGE_SIZE = 8192 := rfl
    rw [final_header_lower, final_header_higher,
      Nat.mod_eq_of_lt (show l9 < 65536 from by omega),
      Nat.mod_eq_of_lt (show h9 < 65536 from by omega)]
    exact ⟨hl9, hh9⟩
  · intro entries hfit
    obtain ⟨p9, hok, h12, h14, _, _, hrec⟩ :=
      write_metadata_spec entries create_postgres_file 18 PAGE_SIZE
        create_lower create_higher (by omega) (le_refl _) hfit
    exact ⟨p9, hok, h12, h14, hrec⟩

/-- Witness for the amended C6: one 3-byte record, through both the
unconditional header clause and the fitting-batch clause. -/
theorem c6_directory_growth_amended_witness :
    (readLE (writeBytes (writeBytes (writeBytes (writeBytes create_postgres_file 18
        (toLeBytes 2 8189)) 8189 [1, 2, 3]) 14 (toLeBytes 2 8189)) 12
        (toLeBytes 2 20)) 12 2 = 18 + 2 * [[1, 2, 3]].length ∧
     readLE (writeBytes (writeBytes (writeBytes (writeBytes create_postgres_file 18
        (toLeBytes 2 8189)) 8189 [1, 2, 3]) 14 (toLeBytes 2 8189)) 12
        (toLeBytes 2 20)) 14 2 = PAGE_SIZE - sumLens [[1, 2, 3]]) ∧
    (∃ p9, write_metadata List.length create_postgres_file [[1, 2, 3]] = .ok p9
      ∧ readLE p9 12 2 = 18 + 2 * [[1, 2, 3]].length
      ∧ readLE p9 14 2 = PAGE_SIZE - sumLens [[1, 2, 3]]
      ∧ ∀ i, i < [[1, 2, 3]].length →
          readLE p9 (18 + 2 * i) 2
              = PAGE_SIZE - sumLens ([[1, 2, 3]].take (i + 1))
          ∧ ∀ k, k < ([[1, 2, 3]].getD i []).length →
              p9 (PAGE_SIZE - sumLens ([[1, 2, 3]].take (i + 1)) + k)
                = ([[1, 2, 3]].getD i []).getD k 0) :=
  ⟨c6_directory_growth_amended.1 [[1, 2, 3]]
    (writeBytes (writeBytes (writeBytes (writeBytes create_postgres_file 18
      (toLeBytes 2 8189)) 8189 [1, 2, 3]) 14 (toLeBytes 2 8189)) 12 (toLeBytes 2 20))
    (by rfl),
   c6_directory_growth_amended.2 [[1, 2, 3]] (by decide)⟩

/-- **C9, counterexample.** The checksum byte at offset 8 of the created
page holds 42, yet the successful batch `[8092-byte record, 95-byte record]`
copies its second record to offset 5 and overwrites bytes 5–17 of the
header: byte 8 of the resulting page is 0.  `lsn`/`checksum`/`flags`/
`special_space` are not preserved by every successful batch write. -/
theorem c9_counterexample :
    create_postgres_file 8 = 42 ∧
    (write_metadata List.length create_postgres_file
      [List.replicate 8092 0, List.replicate 95 0]).isOk = true ∧
    diskAfter List.length create_postgres_file
      [List.replicate 8092 0, List.replicate 95 0] 8 = 0 ∧
    (42 : Nat) ≠ 0 := by
  obtain ⟨q, hloop1, _, _⟩ :=
    writeLoop_ok [List.replicate 8092 0] create_postgres_file 18 PAGE_SIZE
      (le_refl _) (by norm_num [sumLens, PAGE_SIZE])
  have e1 : 18 + 2 * [List.replicate 8092 (0:Nat)].length = 20 := by norm_num
  have e2 : PAGE_SIZE - sumLens [List.replicate 8092 (0:Nat)] = 100 := by
    norm_num [sumLens, PAGE_SIZE]
  rw [e1, e2] at hloop1
  have hno2 : ¬(100 < List.length (List.replicate 95 (0:Nat)) % 65536
      ∨ 20 + 2 > PAGE_SIZE) := by
    rw [List.length_replicate]
    decide
  have hcopy2 : 100 - List.length (List.replicate 95 (0:Nat)) % 65536
      + List.length (List.replicate 95 (0:Nat)) ≤ PAGE_SIZE
      ∧ List.length (List.replicate 95 (0:Nat)) = (List.replicate 95 (0:Nat)).length := by
    rw [List.length_replicate]
    decide
  have hloopfull : writeLoop List.length create_postgres_file 18 PAGE_SIZE
      [List.replicate 8092 0, List.replicate 95 0]
      = .ok (writeBytes (writeBytes q 20 (toLeBytes 2 5)) 5 (List.replicate 95 0))
          22 5 := by
    rw [show [List.replicate 8092 (0:Nat), List.replicate 95 0]
        = [List.replicate 8092 0] ++ [List.replicate 95 0] from rfl,
      writeLoop_append List.length [List.replicate 8092 0] [List.replicate 95 0]
        create_postgres_file 18 PAGE_SIZE q 20 100 hloop1,
      writeLoop_cons_step List.length q 20 100 (List.replicate 95 0) [] hno2 hcopy2,
      show 100 - List.length (List.replicate 95 (0:Nat)) % 65536 = 5 from by norm_num]
    norm_num [writeLoop]
  have hwm := write_metadata_of_loop List.length create_postgres_file
    [List.replicate 8092 0, List.replicate 95 0] _ 22 5
    (by rw [create_lower, create_higher]; exact hloopfull)
  have hda := diskAfter_of_ok List.length create_postgres_file
    [List.replicate 8092 0, List.replicate 95 0] _ hwm
  refine ⟨by decide, ?_, ?_, by decide⟩
  · rw [hwm]
    rfl
  · rw [hda,
      final_header_frame (writeBytes (writeBytes q 20 (toLeBytes 2 5)) 5
        (List.replicate 95 0)) 22 5 8 (by omega),
      writeBytes_apply_mem (writeBytes q 20 (toLeBytes 2 5)) 5
        (List.replicate 95 0) 8 (by omega) (by rw [List.length_replicate]; omega),
      getD_replicate 95 (8 - 5) (by omega)]

/-- **C9, amended.** For every page state and every successful batch write
whose batch fits between the cursors
(`lower + 2N + Σ sizes ≤ higher ≤ 8192`, `18 ≤ lower`), the header fields
`lsn`, `checksum`, `flags` (bytes 0–11) and `special_space` (bytes 16–17)
are unchanged; without the fit condition a record copy may overwrite them
(see the counterexample). -/
theorem c9_header_frame_amended (entries : List (List Nat)) (p : Page) (p9 : Page)
    (h18 : 18 ≤ readLE p 12 2) (hhp : readLE p 14 2 ≤ PAGE_SIZE)
    (hfit : readLE p 12 2 + 2 * entries.length + sumLens entries ≤ readLE p 14 2)
    (hw : write_metadata List.length p entries = .ok p9) :
    ∀ j, j < 12 ∨ (16 ≤ j ∧ j < 18) → p9 j = p j := by
  obtain ⟨q9, hok, _, _, hframe, _, _⟩ :=
    write_metadata_spec entries p (readLE p 12 2) (readLE p 14 2)
      rfl rfl h18 hhp hfit
  have hqp : q9 = p9 := by
    have h1 := hok.symm.trans hw
    simpa using h1
  subst hqp
  exact hframe

/-- Witness for the amended C9: a 1-byte record on a fresh page keeps the
checksum byte at offset 8 intact. -/
theorem c9_header_frame_amended_witness :
    writeBytes (writeBytes (writeBytes (writeBytes create_postgres_file 18
        (toLeBytes 2 8191)) 8191 [5]) 14 (toLeBytes 2 8191)) 12 (toLeBytes 2 20) 8
      = create_postgres_file 8 :=
  c9_header_frame_amended [[5]] create_postgres_file
    (writeBytes (writeBytes (writeBytes (writeBytes create_postgres_file 18
      (toLeBytes 2 8191)) 8191 [5]) 14 (toLeBytes 2 8191)) 12 (toLeBytes 2 20))
    (by decide) (by decide) (by decide) (by rfl) 8 (Or.inl (by decide))

/-- A page whose single directory entry points at a record with a valid
length prefix (1) but an invalid UTF-8 name byte `0xFF`. -/
def badUtf8Page : Page :=
  writeBytes (writeBytes (writeBytes (writeBytes zeroPage 12 (toLeBytes 2 20))
    18 (toLeBytes 2 100)) 104 (toLeBytes 2 1)) 106 [255]

/-- A page whose single directory entry points at a record whose length
prefix (60000) runs past the end of the page. -/
def badLenPage : Page :=
  writeBytes (writeBytes (writeBytes zeroPage 12 (toLeBytes 2 20))
    18 (toLeBytes 2 100)) 104 (toLeBytes 2 60000)

/-- **C8, counterexample.** On a page with an invalid-UTF-8 record byte, and
on one with an out-of-range length prefix, the read path aborts through
`String::from_utf8(..).unwrap()` / out-of-range slicing — a panic, modelled
`none` — rather than returning a typed `MalformedRecord` error (no such
error value exists anywhere in the code). -/
theorem c8_counterexample :
    utf8Valid [255] = false ∧
    read_postgres_class badUtf8Page = none ∧
    read_postgres_class badLenPage = none := by decide

/-- **C8, amended.** A decode failure (an unwrap/slice panic, modelled
`none`) at any directory pointer aborts the whole read call with no partial
result — the failure is propagated, never skipped — but it surfaces as a
panic, not as a typed `MalformedRecord` error value. -/
theorem c8_panic_propagation_amended (p : Page) (ptrs : List Nat) (ptr : Nat)
    (hscan : readPointers p (readLE p 12 2) = some ptrs) (hmem : ptr ∈ ptrs) :
    (parseTableEntry p ptr = none → read_postgres_class p = none) ∧
    (parseColumnEntry p ptr = none → read_postgres_attribute p = none) := by
  constructor
  · intro hn
    show read_metadata p parseTableEntry = none
    rw [read_metadata_eq_of_ptrs p parseTableEntry ptrs hscan]
    exact parseEntries_none_of_mem p parseTableEntry ptrs ptr hmem hn
  · intro hn
    show read_metadata p parseColumnEntry = none
    rw [read_metadata_eq_of_ptrs p parseColumnEntry ptrs hscan]
    exact parseEntries_none_of_mem p parseColumnEntry ptrs ptr hmem hn

/-- Witness for the amended C8, at the invalid-UTF-8 page. -/
theorem c8_panic_propagation_amended_witness :
    (parseTableEntry badUtf8Page 100 = none → read_postgres_class badUtf8Page = none) ∧
    (parseColumnEntry badUtf8Page 100 = none →
      read_postgres_attribute badUtf8Page = none) :=
  c8_panic_propagation_amended badUtf8Page [100] 100 (by decide) (by decide)

instance (p : Page) (i : Nat) (bs : List Nat) : Decidable (bytesAt p i bs) := by
  unfold bytesAt
  infer_instance

/-- Reading the stored table-name length prefix back from wherever an
encoded table record sits: it is the name's byte length mod `2^16`. -/
theorem encodeTable_prefix_readLE (t : TableMetadata) (p : Page)
    (hb : bytesAt p 0 (encodeTable t)) :
    readLE p 4 2 = t.table_name.length % 65536 := by
  have hb1 : bytesAt p 0 (toLeBytes 4 t.table_id ++ toLeBytes 2 t.table_name.length) :=
    bytesAt_append_left p 0 _ t.table_name hb
  have hbn : bytesAt p 4 (toLeBytes 2 t.table_name.length) := by
    have h1 := bytesAt_append_right p 0 (toLeBytes 4 t.table_id)
      (toLeBytes 2 t.table_name.length) hb1
    rwa [toLeBytes_length, Nat.zero_add] at h1
  have h2 := readLE_of_bytesAt p 4 t.table_name.length 2 hbn
  rwa [show (256:Nat) ^ 2 = 65536 from by norm_num] at h2

/-- A table record whose name is 65536 bytes of `'A'` — one byte longer than
a `u16` length prefix can represent. -/
def bigT : TableMetadata := ⟨1, List.replicate 65536 65⟩

/-- A buffer holding the encoding of `bigT` at offset 0. -/
def bigPg : Page := writeBytes zeroPage 0 (encodeTable bigT)

theorem bigPg_bytesAt : bytesAt bigPg 0 (encodeTable bigT) := by
  intro k hk
  rw [Nat.zero_add]
  show writeBytes zeroPage 0 (encodeTable bigT) k = (encodeTable bigT).getD k 0
  rw [writeBytes_apply_mem zeroPage 0 (encodeTable bigT) k (Nat.zero_le k) (by omega),
    Nat.sub_zero]

theorem bigPg_storedLen : readLE bigPg 4 2 = 0 := by
  have h1 := encodeTable_prefix_readLE bigT bigPg bigPg_bytesAt
  rw [show bigT.table_name.length = 65536 from by
    rw [bigT]
    simp only [List.length_replicate]] at h1
  rwa [Nat.mod_self] at h1

theorem bigPg_id : readLE bigPg 0 4 = 1 := by
  have hbid : bytesAt bigPg 0 (toLeBytes 4 bigT.table_id) :=
    bytesAt_append_left _ 0 _ _ (bytesAt_append_left _ 0 _ _ bigPg_bytesAt)
  have h1 := readLE_of_bytesAt bigPg 0 bigT.table_id 4 hbid
  rwa [show bigT.table_id = 1 from rfl, Nat.mod_eq_of_lt (by norm_num)] at h1

/-- **C10.** The catalog encoders store each string field's length prefix as
the byte length reduced modulo `2^16` (`len() as u16`): wherever an encoded
record sits in a buffer, each stored 2-byte prefix reads back as
`length % 65536`, which equals the exact length whenever the field is at
most 65535 bytes long; and for the table record `bigT`, whose name is 65536
bytes long, the stored prefix is 0, so decoding the encoding yields a record
with an empty name — the encode/decode round trip does not return the
original record. -/
theorem c10_length_truncation :
    (∀ (t : TableMetadata) (p : Page), bytesAt p 0 (encodeTable t) →
      readLE p 4 2 = t.table_name.length % 65536) ∧
    (∀ (t : TableMetadata) (p : Page), bytesAt p 0 (encodeTable t) →
      t.table_name.length ≤ 65535 → readLE p 4 2 = t.table_name.length) ∧
    (∀ (c : ColumnMetadata) (p : Page), bytesAt p 0 (encodeColumn c) →
      readLE p 8 2 = c.column_name.length % 65536 ∧
      readLE p (10 + c.column_name.length) 2 = c.data_type.length % 65536) ∧
    (parseTableEntry bigPg 0 = some (⟨1, []⟩, 6) ∧
      (⟨1, []⟩ : TableMetadata) ≠ bigT) := by
  refine ⟨encodeTable_prefix_readLE, ?_, ?_, ?_, ?_⟩
  · intro t p hb hlen
    rw [encodeTable_prefix_readLE t p hb]
    exact Nat.mod_eq_of_lt (by omega)
  · intro c p hb
    have hb6 : bytesAt p 0
        (toLeBytes 4 c.column_id ++ toLeBytes 4 c.table_id ++
          toLeBytes 2 c.column_name.length ++ c.column_name ++
          toLeBytes 2 c.data_type.length ++ c.data_type) :=
      bytesAt_append_left p 0 _ _ hb
    have hb5 : bytesAt p 0
        (toLeBytes 4 c.column_id ++ toLeBytes 4 c.table_id ++
          toLeBytes 2 c.column_name.length ++ c.column_name ++
          toLeBytes 2 c.data_type.length) :=
      bytesAt_append_left p 0 _ _ hb6
    have hbE : bytesAt p (10 + c.column_name.length)
        (toLeBytes 2 c.data_type.length) := by
      have h1 := bytesAt_append_right p 0
        (toLeBytes 4 c.column_id ++ toLeBytes 4 c.table_id ++
          toLeBytes 2 c.column_name.length ++ c.column_name)
        (toLeBytes 2 c.data_type.length) hb5
      rwa [show (toLeBytes 4 c.column_id ++ toLeBytes 4 c.table_id ++
          toLeBytes 2 c.column_name.length ++ c.column_name).length
          = 10 + c.column_name.length from by
            simp only [List.length_append, toLeBytes_length]; try omega,
        Nat.zero_add] at h1
    have hb4 : bytesAt p 0
        (toLeBytes 4 c.column_id ++ toLeBytes 4 c.table_id ++
          toLeBytes 2 c.column_name.length ++ c.column_name) :=
      bytesAt_append_left p 0 _ _ hb5
    have hb3 : bytesAt p 0
        (toLeBytes 4 c.column_id ++ toLeBytes 4 c.table_id ++
          toLeBytes 2 c.column_name.length) :=
      bytesAt_append_left p 0 _ _ hb4
    have hbC : bytesAt p 8 (toLeBytes 2 c.column_name.length) := by
      have h1 := bytesAt_append_right p 0
        (toLeBytes 4 c.column_id ++ toLeBytes 4 c.table_id)
        (toLeBytes 2 c.column_name.length)
        (bytesAt_append_left p 0 _ _ hb3)
      rwa [show (toLeBytes 4 c.column_id ++ toLeBytes 4 c.table_id).length = 8 from by
        simp only [List.length_append, toLeBytes_length], Nat.zero_add] at h1
    constructor
    · have h2 := readLE_of_bytesAt p 8 c.column_name.length 2 hbC
      rwa [show (256:Nat) ^ 2 = 65536 from by norm_num] at h2
    · have h2 := readLE_of_bytesAt p (10 + c.column_name.length)
        c.data_type.length 2 hbE
      rwa [show (256:Nat) ^ 2 = 65536 from by norm_num] at h2
  · simp only [parseTableEntry, Nat.zero_add]
    rw [bigPg_storedLen, bigPg_id]
    decide
  · intro h
    have h2 := congrArg (fun t : TableMetadata => t.table_name.length) h
    simp only [bigT, List.length_replicate, List.length_nil] at h2
    omega

/-- Witness for C10: the 2-byte name "AB" has its exact length stored. -/
theorem c10_length_truncation_witness :
    readLE (writeBytes zeroPage 0 (encodeTable ⟨7, [65, 66]⟩)) 4 2
      = ([65, 66] : List Nat).length :=
  c10_length_truncation.2.1 ⟨7, [65, 66]⟩
    (writeBytes zeroPage 0 (encodeTable ⟨7, [65, 66]⟩)) (by decide) (by decide)

/-- Witness for C7: concrete zeroed bytes of the fresh page. -/
theorem c7_create_page_witness :
    create_postgres_file 4242 = 0 ∧ create_postgres_file 18 = 0 :=
  ⟨c7_create_page.1 4242 (by decide) (by decide),
   c7_create_page.1 18 (by decide) (by decide)⟩
